import Mathlib

/-!
# set-leds.c : a shallow embedding and its verified properties

The program `set-leds.c` finds an I2C adapter with a device answering at
address 0x70, then for each of four LED banks switches the bank to direct
control and writes one colour to eight LEDs.

The embedding below follows `set-leds.c` function by function.  Every
system call of the program (`glob`, `open`, `close`, `ioctl`) is answered by an
environment oracle that sees the whole history of calls made so far, and each
call is appended, with its result, to a trace.  Messages written to `stderr`
are collected in a second log.  The diagnostic `printf` lines on `stdout`
(the `DEBUG:` lines and the dumps of `print_i2c_smbus_ioctl_data`) have no
influence on control flow and are left out.
-/

namespace SetLeds

/-! ## C strings and `strcasecmp` -/

/-- A C string is the array of `char` values it points to; the string proper is
the part before the first NUL (reading past the end of the list reads NUL). -/
abbrev CStr := List Nat

/-- The characters of a C string: everything before the first NUL. -/
def cstr (s : CStr) : List Nat := s.takeWhile (fun c => c != 0)

/-- The libc function `tolower` in the "C" locale (the program never calls
`setlocale`): the upper-case ASCII letters map to lower case, every other
value is unchanged. -/
def tolower (c : Nat) : Nat := if 65 ≤ c ∧ c ≤ 90 then c + 32 else c

/-- The libc function `strcasecmp`: walk both strings, compare the characters
after `tolower`, stop at the first difference or at the terminating NUL, and
return the difference of the last pair compared. -/
def strcasecmp : CStr → CStr → Int
  | [], s2 => (tolower 0 : Int) - (tolower (s2.headD 0) : Int)
  | c1 :: s1, s2 =>
    if tolower c1 ≠ tolower (s2.headD 0) then
      (tolower c1 : Int) - (tolower (s2.headD 0) : Int)
    else if c1 = 0 then 0
    else strcasecmp s1 s2.tail

/-- The string literal "red". -/
def lit_red : CStr := [114, 101, 100]
/-- The string literal "blue". -/
def lit_blue : CStr := [98, 108, 117, 101]
/-- The string literal "black". -/
def lit_black : CStr := [98, 108, 97, 99, 107]

/-- Equality of two C strings when ASCII letter case is ignored. -/
def eq_ignoring_case (s t : CStr) : Prop :=
  (cstr s).map tolower = (cstr t).map tolower

instance (s t : CStr) : Decidable (eq_ignoring_case s t) := by
  unfold eq_ignoring_case; infer_instance

/-! ## Colour resolution and LED addresses -/

/-- Result of `colour_from_name`: the return value and the contents of the
three output cells `*r`, `*b`, `*g` after the call. -/
structure ColourResult where
  ret : Int
  r : Nat
  b : Nat
  g : Nat
  deriving DecidableEq, Repr

/-- `colour_from_name(name, &r, &b, &g)`; `name = none` is the null pointer and
`r b g` are the contents of the output cells before the call. -/
def colour_from_name (name : Option CStr) (r b g : Nat) : ColourResult :=
  match name with
  | none => ⟨-1, r, b, g⟩
  | some s =>
    if strcasecmp s lit_red = 0 then ⟨0, 0xFF, 0x00, 0x00⟩
    else if strcasecmp s lit_blue = 0 then ⟨0, 0x00, 0xFF, 0x00⟩
    else if strcasecmp s lit_black = 0 then ⟨0, 0x00, 0x00, 0x00⟩
    else ⟨-1, r, b, g⟩

/-- Conversion of an `int` to `unsigned int` (32 bits). -/
def to_uint (n : Int) : Nat := (n % 4294967296).toNat

/-- `led_addr_for_index(n)`: `0x0081u + (unsigned int)n * 0x0300u` in 32-bit
unsigned arithmetic. -/
def led_addr_for_index (n : Int) : Nat :=
  (0x0081 + to_uint n * 0x0300) % 4294967296

/-! ## Constants of `<linux/i2c.h>`, `<linux/i2c-dev.h>`, `<fcntl.h>`, `<stdlib.h>`

The program takes these from the system headers; the values are those of the
Linux user-space ABI. -/

abbrev I2C_SMBUS_READ : Nat := 1
abbrev I2C_SMBUS_WRITE : Nat := 0
abbrev I2C_SMBUS_QUICK : Nat := 0
abbrev I2C_SMBUS_BYTE : Nat := 1
abbrev I2C_SMBUS_BYTE_DATA : Nat := 2
abbrev I2C_SMBUS_WORD_DATA : Nat := 3
abbrev I2C_SMBUS_BLOCK_DATA : Nat := 5
abbrev I2C_FUNC_SMBUS_QUICK : Nat := 0x00010000
abbrev I2C_FUNC_SMBUS_READ_BYTE : Nat := 0x00020000
abbrev I2C_FUNC_SMBUS_WRITE_BYTE : Nat := 0x00040000
/-- In `<linux/i2c.h>`: `(I2C_FUNC_SMBUS_READ_BYTE | I2C_FUNC_SMBUS_WRITE_BYTE)`. -/
abbrev I2C_FUNC_SMBUS_BYTE : Nat := I2C_FUNC_SMBUS_READ_BYTE ||| I2C_FUNC_SMBUS_WRITE_BYTE
/-- The flags `O_RDWR | O_CLOEXEC`. -/
abbrev O_RDWR_CLOEXEC : Nat := 0x2 ||| 0x80000
abbrev EXIT_SUCCESS : Int := 0
abbrev EXIT_FAILURE : Int := 1

/-! ## System calls, traces and the environment -/

/-- What the `data` pointer of a `struct i2c_smbus_ioctl_data` points to: the
member of `union i2c_smbus_data` the program filled in (for `block`, the bytes
`block[0..]` it assigned), `null` for a NULL pointer and `buffer` for a union
left for the kernel to fill. -/
inductive SmbusData
  | null
  | buffer
  | byte (v : Nat)
  | word (v : Nat)
  | block (bytes : List Nat)
  deriving DecidableEq, Repr

/-- The fields of `struct i2c_smbus_ioctl_data`. -/
structure SmbusArgs where
  read_write : Nat
  command : Nat
  size : Nat
  data : SmbusData
  deriving DecidableEq, Repr

/-- The `ioctl` requests the program issues, each with its argument. -/
inductive Request
  | I2C_SLAVE (addr : Int)
  | I2C_TENBIT (v : Int)
  | I2C_FUNCS
  | I2C_SMBUS (args : SmbusArgs)
  deriving DecidableEq, Repr

/-- The system and library calls of the program that reach the environment. -/
inductive Call
  | glob (pattern : String) (flags : Nat)
  | globfree
  | open_ (path : String) (flags : Nat)
  | close (fd : Int)
  | ioctl (fd : Int) (req : Request)
  deriving DecidableEq, Repr

/-- One call together with the value it returned. -/
structure Event where
  call : Call
  ret : Int
  deriving DecidableEq, Repr

abbrev Trace := List Event

/-- The calls of a trace, results dropped. -/
def calls (t : Trace) : List Call := t.map Event.call

/-- The environment: for the history of calls so far and the call being made,
the value it returns, the path vector `glob` stores, and the capability mask
a successful `I2C_FUNCS` query stores. -/
structure Env where
  ret : Trace → Call → Int
  pathv : Trace → Call → List String
  funcs : Trace → Call → Nat

/-- The lines the program writes to `stderr` (`fprintf(stderr, ...)` and
`perror`). -/
inductive Msg
  /-- Text: "Usage: %s (red|blue|black)", with argv[0]. -/
  | usage (prog : Option CStr)
  /-- Text: "Invalid colour '%s'. Use one of: red, blue, black." -/
  | invalid_colour (name : Option CStr)
  /-- Text: "No I2C adapters found at /dev/i2c-*" -/
  | no_adapters
  /-- Text: "Warning: cannot open %s: %s" -/
  | cannot_open (dev : String)
  /-- Text: "Warning: cannot query funcs on %s: %s" -/
  | cannot_query (dev : String)
  /-- Text: "No adapter with a responding device at 0x70 was found." -/
  | no_responding_device
  /-- Text: "Warning: No response from bank device at 0x%02x on %s; skipping." -/
  | bank_no_response (bank_addr : Nat) (chosen : Option String)
  /-- Text: "  Failed setting LED%u @ 0x%03X" -/
  | failed_led (led_no : Nat) (led : Nat)
  /-- The line of `perror("write_word(led_addr)")`. -/
  | perror_write_word_led_addr
  /-- The line of `perror("ioctl(I2C_SMBUS, I2C_SMBUS_BLOCK_DATA)")`. -/
  | perror_block_data
  /-- The line of `perror("write_word(0x2080)")`. -/
  | perror_write_word_0x2080
  /-- The line of `perror("write_byte(0x01)")`. -/
  | perror_write_byte_0x01
  deriving DecidableEq, Repr

/-- The program state the embedding threads through: the trace of calls made
and the lines written to `stderr`. -/
structure State where
  trace : Trace
  err : List Msg
  deriving DecidableEq, Repr

/-- Make a call: ask the environment for the result and record the event. -/
def syscall (env : Env) (st : State) (c : Call) : Int × State :=
  (env.ret st.trace c, { st with trace := st.trace ++ [⟨c, env.ret st.trace c⟩] })

/-- Write one line to `stderr`. -/
def eprint (st : State) (m : Msg) : State :=
  { st with err := st.err ++ [m] }

/-- The history once call `c` has been made at history `h`. -/
def after (env : Env) (h : Trace) (c : Call) : Trace := h ++ [⟨c, env.ret h c⟩]

/-! ## The functions of `set-leds.c` -/

/-- The address select made by `set_addr`. -/
def sel_call (fd : Int) (addr : Int) : Call := .ioctl fd (.I2C_SLAVE addr)

/-- The word write made by `write_word`. -/
def word_call (fd : Int) (data : Nat) : Call :=
  .ioctl fd (.I2C_SMBUS ⟨I2C_SMBUS_WRITE, 0, I2C_SMBUS_WORD_DATA, .word data⟩)

/-- The byte-data write made by `write_byte`. -/
def byte_call (fd : Int) (data : Nat) : Call :=
  .ioctl fd (.I2C_SMBUS ⟨I2C_SMBUS_WRITE, 0x01, I2C_SMBUS_BYTE_DATA, .byte data⟩)

/-- The block write made by `write_led_colour`. -/
def block_call (fd : Int) (bytes : List Nat) : Call :=
  .ioctl fd (.I2C_SMBUS ⟨I2C_SMBUS_WRITE, 0x03, I2C_SMBUS_BLOCK_DATA, .block bytes⟩)

/-- The quick transaction made by `smbus_quick_probe`. -/
def quick_call (fd : Int) (rw : Nat) : Call :=
  .ioctl fd (.I2C_SMBUS ⟨rw, 0, I2C_SMBUS_QUICK, .null⟩)

/-- The receive-byte transaction made by `smbus_receive_byte_probe`. -/
def recv_call (fd : Int) : Call :=
  .ioctl fd (.I2C_SMBUS ⟨I2C_SMBUS_READ, 0, I2C_SMBUS_BYTE, .buffer⟩)


/-- Conversion of an `unsigned char` argument to `int`. -/
def of_uchar (c : Nat) : Int := ((c % 256 : Nat) : Int)

/-- `set_addr(fd, addr)`. -/
def set_addr (env : Env) (st : State) (fd : Int) (addr : Int) : Int × State :=
  let c := syscall env st (.ioctl fd (.I2C_SLAVE addr))
  if c.1 < 0 then (-1, c.2) else (0, c.2)

/-- `write_byte(fd, addr, data)`; `data` is an `unsigned char`. -/
def write_byte (env : Env) (st : State) (fd : Int) (addr : Int) (data : Nat) : Int × State :=
  let a := set_addr env st fd addr
  if a.1 < 0 then (-1, a.2)
  else
    let args : SmbusArgs :=
      { read_write := I2C_SMBUS_WRITE, command := 0x01, size := I2C_SMBUS_BYTE_DATA,
        data := .byte (data % 256) }
    let c := syscall env a.2 (.ioctl fd (.I2C_SMBUS args))
    if c.1 < 0 then (-1, c.2) else (0, c.2)

/-- `write_word(fd, addr, data)`; `data` is an `unsigned int` and the field
`smbus_data.word` it is stored in is a `__u16`. -/
def write_word (env : Env) (st : State) (fd : Int) (addr : Int) (data : Nat) : Int × State :=
  let a := set_addr env st fd addr
  if a.1 < 0 then (-1, a.2)
  else
    let args : SmbusArgs :=
      { read_write := I2C_SMBUS_WRITE, command := 0, size := I2C_SMBUS_WORD_DATA,
        data := .word (data % 4294967296 % 65536) }
    let c := syscall env a.2 (.ioctl fd (.I2C_SMBUS args))
    if c.1 < 0 then (-1, c.2) else (0, c.2)

/-- `smbus_quick_probe(fd, rw)`. -/
def smbus_quick_probe (env : Env) (st : State) (fd : Int) (rw : Nat) : Int × State :=
  let args : SmbusArgs :=
    { read_write := rw, command := 0, size := I2C_SMBUS_QUICK, data := .null }
  let c := syscall env st (.ioctl fd (.I2C_SMBUS args))
  if c.1 < 0 then (-1, c.2) else (0, c.2)

/-- `smbus_receive_byte_probe(fd, &dummy)`; the byte received is discarded by
the only caller. -/
def smbus_receive_byte_probe (env : Env) (st : State) (fd : Int) : Int × State :=
  let args : SmbusArgs :=
    { read_write := I2C_SMBUS_READ, command := 0, size := I2C_SMBUS_BYTE, data := .buffer }
  let c := syscall env st (.ioctl fd (.I2C_SMBUS args))
  if c.1 < 0 then (-1, c.2) else (0, c.2)

/-- `has_device_at_addr(fd, funcs, addr)`; `addr` is an `unsigned char`. -/
def has_device_at_addr (env : Env) (st : State) (fd : Int) (funcs : Nat) (addr : Nat) :
    Int × State :=
  let a := set_addr env st fd (of_uchar addr)
  if a.1 < 0 then (0, a.2)
  else if funcs &&& I2C_FUNC_SMBUS_QUICK ≠ 0 then
    let w := smbus_quick_probe env a.2 fd I2C_SMBUS_WRITE
    if w.1 = 0 then (1, w.2)
    else
      let r := smbus_quick_probe env w.2 fd I2C_SMBUS_READ
      if r.1 = 0 then (1, r.2) else (0, r.2)
  else if funcs &&& I2C_FUNC_SMBUS_BYTE ≠ 0 then
    let p := smbus_receive_byte_probe env a.2 fd
    if p.1 = 0 then (1, p.2) else (0, p.2)
  else (0, a.2)

/-- `write_led_colour(fd, bank_addr, led_addr, r, b, g)`; `bank_addr`, `r`, `b`,
`g` are `unsigned char`. -/
def write_led_colour (env : Env) (st : State) (fd : Int) (bank_addr : Nat) (led_addr : Nat)
    (r b g : Nat) : Int × State :=
  let w := write_word env st fd (of_uchar bank_addr) led_addr
  if w.1 < 0 then (-1, eprint w.2 .perror_write_word_led_addr)
  else
    let a := set_addr env w.2 fd (of_uchar bank_addr)
    if a.1 < 0 then (-1, a.2)
    else
      let args : SmbusArgs :=
        { read_write := I2C_SMBUS_WRITE, command := 0x03, size := I2C_SMBUS_BLOCK_DATA,
          data := .block [3, r % 256, b % 256, g % 256] }
      let c := syscall env a.2 (.ioctl fd (.I2C_SMBUS args))
      if c.1 < 0 then (0, eprint c.2 .perror_block_data) else (0, c.2)

/-- `set_led_direct_control(fd, bank_addr, control_code)`. -/
def set_led_direct_control (env : Env) (st : State) (fd : Int) (bank_addr : Nat)
    (control_code : Nat) : Int × State :=
  let w := write_word env st fd (of_uchar bank_addr) control_code
  if w.1 < 0 then (-1, eprint w.2 .perror_write_word_0x2080)
  else
    let y := write_byte env w.2 fd (of_uchar bank_addr) 0x01
    if y.1 < 0 then (-1, eprint y.2 .perror_write_byte_0x01) else (0, y.2)

/-! ## `main` -/

/-- The locals of `main` that the adapter search assigns. -/
structure Search where
  fd : Int
  chosen : Option String
  funcs : Nat
  st : State
  deriving DecidableEq, Repr

/-- The body of the loop `for (i = 0; i < gl.gl_pathc; ++i)` of `main` for the
path `dev`: the locals after the iteration, and whether the iteration left the
loop by `break` (otherwise it ended normally or by `continue`). -/
def adapter_step (env : Env) (s : Search) (dev : String) : Search × Bool :=
  let o := syscall env s.st (.open_ dev O_RDWR_CLOEXEC)
  if o.1 < 0 then
    ({ s with st := eprint o.2 (.cannot_open dev) }, false)
  else
    let q := syscall env o.2 (.ioctl o.1 .I2C_FUNCS)
    if q.1 < 0 then
      ({ s with st := (syscall env (eprint q.2 (.cannot_query dev)) (.close o.1)).2 }, false)
    else
      let funcs := env.funcs o.2.trace (.ioctl o.1 .I2C_FUNCS)
      let t := syscall env q.2 (.ioctl o.1 (.I2C_TENBIT 0))
      let h := has_device_at_addr env t.2 o.1 funcs 0x70
      if h.1 ≠ 0 then
        ({ fd := o.1, chosen := some dev, funcs := funcs, st := h.2 }, true)
      else
        ({ s with funcs := funcs, st := (syscall env h.2 (.close o.1)).2 }, false)

/-- The loop `for (i = 0; i < gl.gl_pathc; ++i)` of `main` over the path
vector. -/
def find_adapter (env : Env) : List String → Search → Search
  | [], s => s
  | dev :: rest, s =>
    if (adapter_step env s dev).2 then (adapter_step env s dev).1
    else find_adapter env rest (adapter_step env s dev).1

/-- The body of the loop `for (int n = 0; n < 8; ++n)` of `main` at counter `n`;
the line reporting success goes to `stdout`, the one reporting failure to
`stderr`. -/
def led_iter (env : Env) (fd : Int) (bank_addr : Nat) (r b g : Nat) (st : State) (n : Nat) :
    State :=
  let led := led_addr_for_index (n : Int)
  let w := write_led_colour env st fd bank_addr led r b g
  if w.1 = 0 then w.2 else eprint w.2 (.failed_led (n + 1) led)

/-- The loop `for (int n = 0; n < 8; ++n)` of `main`, entered with counter `n`. -/
def led_loop (env : Env) (fd : Int) (bank_addr : Nat) (r b g : Nat) (n : Nat) (st : State) :
    State :=
  if n < 8 then led_loop env fd bank_addr r b g (n + 1) (led_iter env fd bank_addr r b g st n)
  else st
termination_by 8 - n

/-- Whether a call is an SMBus block-data transaction. -/
def is_block_write : Call → Bool
  | .ioctl _ (.I2C_SMBUS args) => args.size == I2C_SMBUS_BLOCK_DATA
  | _ => false

/-- The body of the loop over `banks[]` of `main` for one bank address. -/
def bank_body (env : Env) (fd : Int) (chosen : Option String) (funcs : Nat) (r b g : Nat)
    (bank_addr : Nat) (st : State) : State :=
  let h := has_device_at_addr env st fd funcs bank_addr
  if h.1 = 0 then eprint h.2 (.bank_no_response bank_addr chosen)
  else
    let d1 := set_led_direct_control env h.2 fd bank_addr 0x2080
    let d2 := set_led_direct_control env d1.2 fd bank_addr 0xA080
    led_loop env fd bank_addr r b g 0 d2.2

/-- The array `banks[]` of `main`. -/
def banks : List Nat := [0x70, 0x71, 0x72, 0x73]

/-- The loop `for (bi = 0; bi < ARRAY_SIZE(banks); ++bi)` of `main`. -/
def bank_loop (env : Env) (fd : Int) (chosen : Option String) (funcs : Nat) (r b g : Nat) :
    List Nat → State → State
  | [], st => st
  | bank_addr :: rest, st =>
    bank_loop env fd chosen funcs r b g rest (bank_body env fd chosen funcs r b g bank_addr st)

/-- The call `glob("/dev/i2c-*", 0, NULL, &gl)` of `main`. -/
def glob_call : Call := .glob "/dev/i2c-*" 0

/-- `main(argc, argv)` with `argc = argv.length`: the exit status and the final
state. -/
def main (env : Env) (argv : List CStr) : Int × State :=
  let st0 : State := { trace := [], err := [] }
  if argv.length ≠ 2 then (EXIT_FAILURE, eprint st0 (.usage argv.head?))
  else
    let c := colour_from_name (argv.get? 1) 0 0 0
    if c.ret ≠ 0 then (EXIT_FAILURE, eprint st0 (.invalid_colour (argv.get? 1)))
    else
      let gl_pathv := env.pathv st0.trace glob_call
      let gr := syscall env st0 glob_call
      if gr.1 ≠ 0 ∨ gl_pathv.length = 0 then
        (EXIT_FAILURE, (syscall env (eprint gr.2 .no_adapters) .globfree).2)
      else
        let s := find_adapter env gl_pathv { fd := -1, chosen := none, funcs := 0, st := gr.2 }
        if s.fd < 0 then
          (EXIT_FAILURE, (syscall env (eprint s.st .no_responding_device) .globfree).2)
        else
          let bl := bank_loop env s.fd s.chosen s.funcs c.r c.b c.g banks s.st
          let cl := syscall env bl (.close s.fd)
          (EXIT_SUCCESS, (syscall env cl.2 .globfree).2)

/-! ## One iteration of the adapter search, call by call -/

/-- The `open` call of the search for the path `dev`. -/
def open_call (dev : String) : Call := .open_ dev O_RDWR_CLOEXEC

/-- The capability query `ioctl(fd, I2C_FUNCS, &funcs)`. -/
def funcs_call (fd : Int) : Call := .ioctl fd .I2C_FUNCS

/-- The call `ioctl(fd, I2C_TENBIT, 0)`. -/
def tenbit_call (fd : Int) : Call := .ioctl fd (.I2C_TENBIT 0)

/-- The descriptor `open` returns for `dev` in the iteration entered with `s`. -/
def step_fd (env : Env) (s : Search) (dev : String) : Int :=
  env.ret s.st.trace (open_call dev)

/-- The value the capability query returns in that iteration. -/
def step_query (env : Env) (s : Search) (dev : String) : Int :=
  env.ret (after env s.st.trace (open_call dev)) (funcs_call (step_fd env s dev))

/-- The capability mask the query of that iteration stores. -/
def step_funcs (env : Env) (s : Search) (dev : String) : Nat :=
  env.funcs (after env s.st.trace (open_call dev)) (funcs_call (step_fd env s dev))

/-- The state in which that iteration calls `has_device_at_addr`: `dev` is open,
the query and the `I2C_TENBIT` call have been made. -/
def step_probe_state (env : Env) (s : Search) (dev : String) : State :=
  ⟨after env (after env (after env s.st.trace (open_call dev))
      (funcs_call (step_fd env s dev))) (tenbit_call (step_fd env s dev)), s.st.err⟩

/-- The locals of `main` when the loop over the path vector is entered. -/
def search_init (env : Env) : Search :=
  { fd := -1, chosen := none, funcs := 0,
    st := (syscall env { trace := [], err := [] } glob_call).2 }

/-! ## Observations on traces -/

/-- The paths of the `open` calls of a trace, in order. -/
def opened_paths (t : Trace) : List String :=
  t.filterMap (fun e => match e.call with
    | .open_ path _ => some path
    | _ => none)

/-- How many `open` calls of the trace returned the descriptor `x`. -/
def open_count (t : Trace) (x : Int) : Nat :=
  t.countP (fun e => match e.call with
    | .open_ _ _ => e.ret == x
    | _ => false)

/-- How many `close(x)` calls the trace has. -/
def close_count (t : Trace) (x : Int) : Nat :=
  t.countP (fun e => e.call == .close x)

/-- Whether a call is an SMBus transaction. -/
def is_smbus : Call → Bool
  | .ioctl _ (.I2C_SMBUS _) => true
  | _ => false

/-- Whether a call is a probe transaction: an SMBus quick transaction or a
receive-byte. -/
def is_probe : Call → Bool
  | .ioctl _ (.I2C_SMBUS args) =>
    args.size == I2C_SMBUS_QUICK || (args.size == I2C_SMBUS_BYTE && args.read_write == I2C_SMBUS_READ)
  | _ => false

/-- Whether a call is a bank-level transaction: a word write, a byte-data
write, a block write, or an address select of an address other than 0x70.
(A probe goes to the address selected last, so a probe of another address
needs such a select.) -/
def is_bank_transaction : Call → Bool
  | .ioctl _ (.I2C_SMBUS args) =>
    args.size == I2C_SMBUS_WORD_DATA || args.size == I2C_SMBUS_BYTE_DATA ||
      args.size == I2C_SMBUS_BLOCK_DATA
  | .ioctl _ (.I2C_SLAVE addr) => addr != 0x70
  | _ => false

/-- The descriptor an `ioctl` or `close` call acts on. -/
def call_fd : Call → Option Int
  | .ioctl fd _ => some fd
  | .close fd => some fd
  | _ => none

/-- In the trace, the adapter `dev` was opened with descriptor `fd`, answered
the capability query, and passed the presence probe at 0x70: the address
select of 0x70 and a probe transaction on `fd` succeeded. -/
def responded_on (t : Trace) (dev : String) (fd : Int) : Prop :=
  0 ≤ fd ∧ ⟨open_call dev, fd⟩ ∈ t ∧
  (∃ e ∈ t, e.call = funcs_call fd ∧ 0 ≤ e.ret) ∧
  (∃ e ∈ t, e.call = sel_call fd 0x70 ∧ 0 ≤ e.ret) ∧
  (∃ e ∈ t, is_probe e.call = true ∧ call_fd e.call = some fd ∧ 0 ≤ e.ret)

instance (t : Trace) (dev : String) (fd : Int) : Decidable (responded_on t dev fd) := by
  unfold responded_on; infer_instance

/-- In the trace, at least one of the enumerated adapters opened, answered the
capability query and passed the presence probe at 0x70. -/
def adapter_responded (t : Trace) (paths : List String) : Prop :=
  ∃ dev ∈ paths, ∃ e ∈ t, e.call = open_call dev ∧ responded_on t dev e.ret

instance (t : Trace) (paths : List String) : Decidable (adapter_responded t paths) := by
  unfold adapter_responded; infer_instance

/-! ## The expected call sequences of a bank, written from the specification -/

/-- An environment in which every call returns 0, `glob` finds the two paths
given and every adapter reports the capability mask `funcs`. -/
def env_ok (funcs : Nat) : Env :=
  { ret := fun _ _ => 0
    pathv := fun _ _ => ["/dev/i2c-0", "/dev/i2c-1"]
    funcs := fun _ _ => funcs }

/-- The state before any call. -/
def st0 : State := { trace := [], err := [] }

/-- An environment with two adapter paths in which `open` always fails. -/
def env_no_open : Env :=
  { ret := fun _ c => match c with
      | .open_ _ _ => -1
      | _ => 0
    pathv := fun _ _ => ["/dev/i2c-0", "/dev/i2c-1"]
    funcs := fun _ _ => 0 }

/-- An environment with two adapter paths in which the first `open` (made
right after `glob`) fails and every other call succeeds, `open` returning 5. -/
def env_second : Env :=
  { ret := fun h c => match c with
      | .open_ _ _ => if h.length = 1 then -1 else 5
      | _ => 0
    pathv := fun _ _ => ["/dev/i2c-0", "/dev/i2c-1"]
    funcs := fun _ _ => I2C_FUNC_SMBUS_QUICK }

/-- The argument vector of the command line `set-leds red`. -/
def argv_red : List CStr := [[115, 101, 116, 45, 108, 101, 100, 115], lit_red]

/-! ## Colour names -/

theorem tolower_eq_zero (c : Nat) : tolower c = 0 ↔ c = 0 := by
  unfold tolower
  split <;> omega

theorem cstr_nil : cstr [] = [] := rfl

theorem cstr_cons_zero (s : CStr) : cstr (0 :: s) = [] := by
  simp [cstr, List.takeWhile]

theorem cstr_cons_ne (c : Nat) (s : CStr) (h : c ≠ 0) : cstr (c :: s) = c :: cstr s := by
  have hb : (c != 0) = true := by simpa using h
  simp [cstr, List.takeWhile, hb]

theorem cstr_eq_nil_iff (s : CStr) : cstr s = [] ↔ s.headD 0 = 0 := by
  cases s with
  | nil => simp [cstr]
  | cons c s =>
    by_cases h : c = 0
    · subst h; simp [cstr_cons_zero]
    · simp [cstr_cons_ne c s h, h]

/-- The function `strcasecmp` returns 0 exactly on strings that are equal when
ASCII letter case is ignored. -/
theorem strcasecmp_eq_zero_iff (s t : CStr) :
    strcasecmp s t = 0 ↔ eq_ignoring_case s t := by
  induction s generalizing t with
  | nil =>
    unfold strcasecmp eq_ignoring_case
    have h0 : tolower 0 = 0 := rfl
    rw [cstr_nil, h0]
    constructor
    · intro h
      have h1 : tolower (t.headD 0) = 0 := by omega
      rw [tolower_eq_zero, ← cstr_eq_nil_iff] at h1
      simp [h1]
    · intro h
      have h1 : cstr t = [] := by simpa using h.symm
      rw [cstr_eq_nil_iff, ← tolower_eq_zero] at h1
      omega
  | cons c1 s1 ih =>
    unfold strcasecmp eq_ignoring_case
    cases t with
    | nil =>
      have h0 : tolower 0 = 0 := rfl
      by_cases hc : c1 = 0
      · subst hc; simp [cstr_cons_zero, cstr_nil, h0]
      · have ht : tolower c1 ≠ 0 := fun h => hc ((tolower_eq_zero c1).1 h)
        simp [cstr_cons_ne c1 s1 hc, cstr_nil, h0, ht]
    | cons c2 s2 =>
      simp only [List.headD_cons, List.tail_cons]
      by_cases hne : tolower c1 = tolower c2
      · by_cases hc : c1 = 0
        · subst hc
          have h2 : c2 = 0 := (tolower_eq_zero c2).1 hne.symm
          subst h2
          simp [cstr_cons_zero]
        · have h2 : c2 ≠ 0 := fun h => hc ((tolower_eq_zero c1).1 (by rw [hne, h]; rfl))
          simp only [hne, ne_eq, not_true_eq_false, if_false, hc, cstr_cons_ne c1 s1 hc,
            cstr_cons_ne c2 s2 h2, List.map_cons, List.cons.injEq, true_and]
          exact ih s2
      · have hd : (tolower c1 : Int) - (tolower c2 : Int) ≠ 0 := by omega
        simp only [ne_eq, hne, not_false_eq_true, if_true, hd, false_iff]
        intro h
        by_cases hc : c1 = 0
        · subst hc
          by_cases h2 : c2 = 0
          · subst h2; exact hne rfl
          · simp [cstr_cons_zero, cstr_cons_ne c2 s2 h2] at h
        · by_cases h2 : c2 = 0
          · subst h2; simp [cstr_cons_zero, cstr_cons_ne c1 s1 hc] at h
          · simp [cstr_cons_ne c1 s1 hc, cstr_cons_ne c2 s2 h2] at h
            exact hne h.1

theorem not_red_of_blue (s : CStr) (h : eq_ignoring_case s lit_blue) :
    ¬ eq_ignoring_case s lit_red := by
  unfold eq_ignoring_case at *
  rw [h]; decide

theorem not_red_of_black (s : CStr) (h : eq_ignoring_case s lit_black) :
    ¬ eq_ignoring_case s lit_red := by
  unfold eq_ignoring_case at *
  rw [h]; decide

theorem not_blue_of_black (s : CStr) (h : eq_ignoring_case s lit_black) :
    ¬ eq_ignoring_case s lit_blue := by
  unfold eq_ignoring_case at *
  rw [h]; decide

/-- C1: `colour_from_name` returns 0 exactly for the names "red", "blue" and
"black" compared without regard to ASCII letter case; on success the cells
(r,b,g) hold (0xFF,0,0) for red, (0,0xFF,0) for blue and (0,0,0) for black; on
every other string, and on the null pointer, it returns -1 (and leaves the
cells as they were). -/
theorem colour_from_name_spec (name : Option CStr) (r b g : Nat) :
    ((colour_from_name name r b g).ret = 0 ↔
      ∃ s, name = some s ∧
        (eq_ignoring_case s lit_red ∨ eq_ignoring_case s lit_blue ∨
          eq_ignoring_case s lit_black)) ∧
    (∀ s, name = some s → eq_ignoring_case s lit_red →
      colour_from_name name r b g = ⟨0, 0xFF, 0x00, 0x00⟩) ∧
    (∀ s, name = some s → eq_ignoring_case s lit_blue →
      colour_from_name name r b g = ⟨0, 0x00, 0xFF, 0x00⟩) ∧
    (∀ s, name = some s → eq_ignoring_case s lit_black →
      colour_from_name name r b g = ⟨0, 0x00, 0x00, 0x00⟩) ∧
    ((colour_from_name name r b g).ret ≠ 0 → colour_from_name name r b g = ⟨-1, r, b, g⟩) ∧
    colour_from_name none r b g = ⟨-1, r, b, g⟩ := by
  cases name with
  | none => simp [colour_from_name]
  | some s =>
    by_cases hr : eq_ignoring_case s lit_red
    · simp [colour_from_name, strcasecmp_eq_zero_iff, hr]
      exact ⟨fun h => absurd hr (not_red_of_blue s h), fun h => absurd hr (not_red_of_black s h)⟩
    · by_cases hb : eq_ignoring_case s lit_blue
      · simp [colour_from_name, strcasecmp_eq_zero_iff, hr, hb]
        exact fun h => absurd hb (not_blue_of_black s h)
      · by_cases hk : eq_ignoring_case s lit_black
        · simp [colour_from_name, strcasecmp_eq_zero_iff, hr, hb, hk]
        · simp [colour_from_name, strcasecmp_eq_zero_iff, hr, hb, hk]

/-- Concrete runs of `colour_from_name`: mixed-case names are accepted, a
longer or shorter string and the empty string are rejected. -/
theorem colour_from_name_samples :
    colour_from_name (some [82, 101, 68]) 7 8 9 = ⟨0, 0xFF, 0, 0⟩ ∧
    colour_from_name (some [66, 76, 85, 69]) 7 8 9 = ⟨0, 0, 0xFF, 0⟩ ∧
    colour_from_name (some [98, 76, 97, 67, 107, 0, 33]) 7 8 9 = ⟨0, 0, 0, 0⟩ ∧
    colour_from_name (some [114, 101, 100, 115]) 7 8 9 = ⟨-1, 7, 8, 9⟩ ∧
    colour_from_name (some [103, 114, 101, 101, 110]) 7 8 9 = ⟨-1, 7, 8, 9⟩ ∧
    colour_from_name (some []) 7 8 9 = ⟨-1, 7, 8, 9⟩ := by
  decide

/-! ## Traces of the primitives -/

@[simp] theorem syscall_fst (env : Env) (st : State) (c : Call) :
    (syscall env st c).1 = env.ret st.trace c := rfl

@[simp] theorem syscall_trace (env : Env) (st : State) (c : Call) :
    (syscall env st c).2.trace = st.trace ++ [⟨c, env.ret st.trace c⟩] := rfl

@[simp] theorem syscall_err (env : Env) (st : State) (c : Call) :
    (syscall env st c).2.err = st.err := rfl

@[simp] theorem eprint_trace (st : State) (m : Msg) : (eprint st m).trace = st.trace := rfl

@[simp] theorem eprint_err (st : State) (m : Msg) : (eprint st m).err = st.err ++ [m] := rfl

@[simp] theorem calls_append (t u : Trace) : calls (t ++ u) = calls t ++ calls u := by
  simp [calls]

@[simp] theorem calls_cons (e : Event) (t : Trace) : calls (e :: t) = e.call :: calls t := rfl

@[simp] theorem calls_nil : calls [] = [] := rfl

theorem set_addr_fst (env : Env) (st : State) (fd addr : Int) :
    (set_addr env st fd addr).1 = if env.ret st.trace (sel_call fd addr) < 0 then -1 else 0 := by
  unfold set_addr sel_call; simp only [syscall_fst]; split <;> rfl

theorem set_addr_snd (env : Env) (st : State) (fd addr : Int) :
    (set_addr env st fd addr).2 = (syscall env st (sel_call fd addr)).2 := by
  unfold set_addr sel_call; simp only []; split <;> rfl

theorem set_addr_neg_iff (env : Env) (st : State) (fd addr : Int) :
    (set_addr env st fd addr).1 < 0 ↔ env.ret st.trace (sel_call fd addr) < 0 := by
  rw [set_addr_fst]; split <;> simp [*]

theorem write_word_snd (env : Env) (st : State) (fd addr : Int) (data : Nat) :
    (write_word env st fd addr data).2 =
      if env.ret st.trace (sel_call fd addr) < 0 then (syscall env st (sel_call fd addr)).2
      else (syscall env (syscall env st (sel_call fd addr)).2
        (word_call fd (data % 4294967296 % 65536))).2 := by
  unfold write_word
  simp only [set_addr_neg_iff, set_addr_snd, word_call]
  split
  · rfl
  · split <;> rfl

theorem write_word_neg_iff (env : Env) (st : State) (fd addr : Int) (data : Nat) :
    (write_word env st fd addr data).1 < 0 ↔
      (env.ret st.trace (sel_call fd addr) < 0 ∨
       env.ret (after env st.trace (sel_call fd addr))
         (word_call fd (data % 4294967296 % 65536)) < 0) := by
  unfold write_word
  simp only [set_addr_neg_iff, set_addr_snd, word_call, syscall_fst, syscall_trace, after]
  split
  · simp [*]
  · split <;> simp [*]

theorem write_byte_snd (env : Env) (st : State) (fd addr : Int) (data : Nat) :
    (write_byte env st fd addr data).2 =
      if env.ret st.trace (sel_call fd addr) < 0 then (syscall env st (sel_call fd addr)).2
      else (syscall env (syscall env st (sel_call fd addr)).2
        (byte_call fd (data % 256))).2 := by
  unfold write_byte
  simp only [set_addr_neg_iff, set_addr_snd, byte_call]
  split
  · rfl
  · split <;> rfl

theorem smbus_quick_probe_snd (env : Env) (st : State) (fd : Int) (rw : Nat) :
    (smbus_quick_probe env st fd rw).2 = (syscall env st (quick_call fd rw)).2 := by
  unfold smbus_quick_probe quick_call; simp only []; split <;> rfl

theorem smbus_quick_probe_eq_zero_iff (env : Env) (st : State) (fd : Int) (rw : Nat) :
    (smbus_quick_probe env st fd rw).1 = 0 ↔ 0 ≤ env.ret st.trace (quick_call fd rw) := by
  unfold smbus_quick_probe quick_call; simp only [syscall_fst]; split <;> simp <;> omega

theorem smbus_receive_byte_probe_snd (env : Env) (st : State) (fd : Int) :
    (smbus_receive_byte_probe env st fd).2 = (syscall env st (recv_call fd)).2 := by
  unfold smbus_receive_byte_probe recv_call; simp only []; split <;> rfl

theorem smbus_receive_byte_probe_eq_zero_iff (env : Env) (st : State) (fd : Int) :
    (smbus_receive_byte_probe env st fd).1 = 0 ↔ 0 ≤ env.ret st.trace (recv_call fd) := by
  unfold smbus_receive_byte_probe recv_call; simp only [syscall_fst]; split <;> simp <;> omega

theorem syscall_snd (env : Env) (st : State) (c : Call) :
    (syscall env st c).2 = ⟨after env st.trace c, st.err⟩ := rfl

/-- The result of `has_device_at_addr`, path by path, in terms of the answers of
the environment. -/
theorem has_device_at_addr_eq (env : Env) (st : State) (fd : Int) (funcs addr : Nat) :
    has_device_at_addr env st fd funcs addr =
      if env.ret st.trace (sel_call fd (of_uchar addr)) < 0 then
        (0, ⟨after env st.trace (sel_call fd (of_uchar addr)), st.err⟩)
      else if funcs &&& I2C_FUNC_SMBUS_QUICK ≠ 0 then
        if 0 ≤ env.ret (after env st.trace (sel_call fd (of_uchar addr)))
            (quick_call fd I2C_SMBUS_WRITE) then
          (1, ⟨after env (after env st.trace (sel_call fd (of_uchar addr)))
            (quick_call fd I2C_SMBUS_WRITE), st.err⟩)
        else if 0 ≤ env.ret (after env (after env st.trace
            (sel_call fd (of_uchar addr))) (quick_call fd I2C_SMBUS_WRITE))
            (quick_call fd I2C_SMBUS_READ) then
          (1, ⟨after env (after env (after env st.trace
            (sel_call fd (of_uchar addr))) (quick_call fd I2C_SMBUS_WRITE))
            (quick_call fd I2C_SMBUS_READ), st.err⟩)
        else
          (0, ⟨after env (after env (after env st.trace
            (sel_call fd (of_uchar addr))) (quick_call fd I2C_SMBUS_WRITE))
            (quick_call fd I2C_SMBUS_READ), st.err⟩)
      else if funcs &&& I2C_FUNC_SMBUS_BYTE ≠ 0 then
        if 0 ≤ env.ret (after env st.trace (sel_call fd (of_uchar addr)))
            (recv_call fd) then
          (1, ⟨after env (after env st.trace (sel_call fd (of_uchar addr)))
            (recv_call fd), st.err⟩)
        else
          (0, ⟨after env (after env st.trace (sel_call fd (of_uchar addr)))
            (recv_call fd), st.err⟩)
      else (0, ⟨after env st.trace (sel_call fd (of_uchar addr)), st.err⟩) := by
  unfold has_device_at_addr
  simp only [set_addr_neg_iff, set_addr_snd, smbus_quick_probe_eq_zero_iff,
    smbus_quick_probe_snd, smbus_receive_byte_probe_eq_zero_iff,
    smbus_receive_byte_probe_snd, syscall_snd]

theorem byte_of_read_byte (funcs : Nat) (h : funcs &&& I2C_FUNC_SMBUS_READ_BYTE ≠ 0) :
    funcs &&& I2C_FUNC_SMBUS_BYTE ≠ 0 := by
  intro hb
  apply h
  have e : I2C_FUNC_SMBUS_READ_BYTE = I2C_FUNC_SMBUS_BYTE &&& I2C_FUNC_SMBUS_READ_BYTE := by
    decide
  rw [e, ← Nat.land_assoc, hb]
  simp

/-- C2: the code at the failing input.  With only the write-byte capability
(mask 0x00040000) neither the quick nor the read-byte capability is present,
so the probe should return 0 after the address select alone.  The guard of
`has_device_at_addr` tests the two-bit mask I2C_FUNC_SMBUS_BYTE instead of
I2C_FUNC_SMBUS_READ_BYTE, so the code issues a receive-byte transaction on
an adapter that does not offer it and, when the call succeeds, reports the
device present. -/
theorem has_device_at_addr_write_byte_only :
    I2C_FUNC_SMBUS_WRITE_BYTE &&& I2C_FUNC_SMBUS_QUICK = 0 ∧
    I2C_FUNC_SMBUS_WRITE_BYTE &&& I2C_FUNC_SMBUS_READ_BYTE = 0 ∧
    (has_device_at_addr (env_ok 0) st0 3 I2C_FUNC_SMBUS_WRITE_BYTE 0x70).1 = 1 ∧
    calls (has_device_at_addr (env_ok 0) st0 3 I2C_FUNC_SMBUS_WRITE_BYTE 0x70).2.trace =
      [sel_call 3 0x70, recv_call 3] := by
  decide

/-- The last branch of `has_device_at_addr`: when the mask `funcs` has no bit of
I2C_FUNC_SMBUS_QUICK and no bit of I2C_FUNC_SMBUS_BYTE, the function returns
0 and the only call it makes is the address select. -/
theorem has_device_at_addr_no_capability (env : Env) (st : State) (fd : Int)
    (funcs addr : Nat) (hq : funcs &&& I2C_FUNC_SMBUS_QUICK = 0)
    (hb : funcs &&& I2C_FUNC_SMBUS_BYTE = 0) :
    (has_device_at_addr env st fd funcs addr).1 = 0 ∧
    (has_device_at_addr env st fd funcs addr).2.trace =
      after env st.trace (sel_call fd (of_uchar addr)) ∧
    calls (has_device_at_addr env st fd funcs addr).2.trace =
      calls st.trace ++ [sel_call fd (of_uchar addr)] ∧
    (has_device_at_addr env st fd funcs addr).2.err = st.err := by
  rw [has_device_at_addr_eq]
  simp only [hq, hb, ne_eq, not_true_eq_false, if_false]
  split <;> simp [after]

/-- The last branch of `has_device_at_addr` on an adapter that offers plain I2C
transfers only (mask 1). -/
theorem has_device_at_addr_no_capability_witness :
    (1 &&& I2C_FUNC_SMBUS_QUICK = 0 ∧ 1 &&& I2C_FUNC_SMBUS_BYTE = 0) ∧
    (has_device_at_addr (env_ok 1) st0 3 1 0x70).1 = 0 ∧
    calls (has_device_at_addr (env_ok 1) st0 3 1 0x70).2.trace = [sel_call 3 0x70] :=
  ⟨by decide,
   (has_device_at_addr_no_capability (env_ok 1) st0 3 1 0x70 (by decide) (by decide)).1,
   (has_device_at_addr_no_capability (env_ok 1) st0 3 1 0x70 (by decide) (by decide)).2.2.1⟩

/-- C7: the tiered presence probe.  If the address select fails the result is
"not present" and nothing else is called.  If it succeeds and the quick
capability is present, a quick write is attempted, a quick read is attempted
only when the quick write failed, the result is "present" exactly when one of
the two succeeded, and no receive-byte is ever attempted.  If it succeeds, the
quick capability is absent and read-byte is supported, exactly one
receive-byte is attempted and the result is "present" exactly when it
succeeded. -/
theorem has_device_at_addr_tiered (env : Env) (st : State) (fd : Int) (funcs addr : Nat) :
    (has_device_at_addr env st fd funcs addr).2.err = st.err ∧
    (env.ret st.trace (sel_call fd (of_uchar addr)) < 0 →
      (has_device_at_addr env st fd funcs addr).1 = 0 ∧
      (has_device_at_addr env st fd funcs addr).2.trace =
        after env st.trace (sel_call fd (of_uchar addr))) ∧
    (0 ≤ env.ret st.trace (sel_call fd (of_uchar addr)) →
      funcs &&& I2C_FUNC_SMBUS_QUICK ≠ 0 →
      (has_device_at_addr env st fd funcs addr).2.trace =
        (if 0 ≤ env.ret (after env st.trace (sel_call fd (of_uchar addr)))
            (quick_call fd I2C_SMBUS_WRITE) then
          after env (after env st.trace (sel_call fd (of_uchar addr)))
            (quick_call fd I2C_SMBUS_WRITE)
        else
          after env (after env (after env st.trace (sel_call fd (of_uchar addr)))
            (quick_call fd I2C_SMBUS_WRITE)) (quick_call fd I2C_SMBUS_READ)) ∧
      (has_device_at_addr env st fd funcs addr).1 =
        (if 0 ≤ env.ret (after env st.trace (sel_call fd (of_uchar addr)))
              (quick_call fd I2C_SMBUS_WRITE) ∨
            0 ≤ env.ret (after env (after env st.trace
              (sel_call fd (of_uchar addr))) (quick_call fd I2C_SMBUS_WRITE))
              (quick_call fd I2C_SMBUS_READ) then 1 else 0) ∧
      recv_call fd ∉ calls ((has_device_at_addr env st fd funcs addr).2.trace.drop
        st.trace.length)) ∧
    (0 ≤ env.ret st.trace (sel_call fd (of_uchar addr)) →
      funcs &&& I2C_FUNC_SMBUS_QUICK = 0 →
      funcs &&& I2C_FUNC_SMBUS_READ_BYTE ≠ 0 →
      (has_device_at_addr env st fd funcs addr).2.trace =
        after env (after env st.trace (sel_call fd (of_uchar addr)))
          (recv_call fd) ∧
      (has_device_at_addr env st fd funcs addr).1 =
        (if 0 ≤ env.ret (after env st.trace (sel_call fd (of_uchar addr)))
            (recv_call fd) then 1 else 0)) := by
  refine ⟨?_, ?_, ?_, ?_⟩
  · rw [has_device_at_addr_eq]; split_ifs <;> rfl
  · intro h
    rw [has_device_at_addr_eq, if_pos h]
    exact ⟨rfl, rfl⟩
  · intro h hq
    have h1 : ¬ env.ret st.trace (sel_call fd (of_uchar addr)) < 0 := by omega
    rw [has_device_at_addr_eq, if_neg h1, if_pos hq]
    by_cases hw : 0 ≤ env.ret (after env st.trace (sel_call fd (of_uchar addr)))
        (quick_call fd I2C_SMBUS_WRITE)
    · rw [if_pos hw, if_pos hw, if_pos (Or.inl hw)]
      refine ⟨rfl, rfl, ?_⟩
      simp [after, calls, sel_call, quick_call, recv_call]
    · rw [if_neg hw, if_neg hw]
      by_cases hr : 0 ≤ env.ret (after env (after env st.trace
          (sel_call fd (of_uchar addr))) (quick_call fd I2C_SMBUS_WRITE))
          (quick_call fd I2C_SMBUS_READ)
      · rw [if_pos hr, if_pos (Or.inr hr)]
        refine ⟨rfl, rfl, ?_⟩
        simp [after, calls, sel_call, quick_call, recv_call]
      · rw [if_neg hr, if_neg (not_or.2 ⟨hw, hr⟩)]
        refine ⟨rfl, rfl, ?_⟩
        simp [after, calls, sel_call, quick_call, recv_call]
  · intro h hq hb
    have h1 : ¬ env.ret st.trace (sel_call fd (of_uchar addr)) < 0 := by omega
    have hq1 : ¬ funcs &&& I2C_FUNC_SMBUS_QUICK ≠ 0 := by simp [hq]
    rw [has_device_at_addr_eq, if_neg h1, if_neg hq1, if_pos (byte_of_read_byte funcs hb)]
    split_ifs <;> exact ⟨rfl, rfl⟩

/-- C7 on concrete adapters: with the quick capability and a device that
answers the quick write, one quick write is made; with read-byte only, one
receive-byte is made. -/
theorem has_device_at_addr_tiered_witness :
    calls (has_device_at_addr (env_ok I2C_FUNC_SMBUS_QUICK) st0 3 I2C_FUNC_SMBUS_QUICK
      0x70).2.trace = [sel_call 3 0x70, quick_call 3 I2C_SMBUS_WRITE] ∧
    (has_device_at_addr (env_ok 0) st0 3 I2C_FUNC_SMBUS_READ_BYTE 0x70).2.trace =
      after (env_ok 0) (after (env_ok 0) st0.trace (sel_call 3 (of_uchar 0x70)))
        (recv_call 3) :=
  ⟨by decide,
   ((has_device_at_addr_tiered (env_ok 0) st0 3 I2C_FUNC_SMBUS_READ_BYTE 0x70).2.2.2
      (by decide) (by decide) (by decide)).1⟩

/-! ## Writing one LED -/

/-- The result of `write_led_colour`, path by path, in terms of the answers of
the environment. -/
theorem write_led_colour_eq (env : Env) (st : State) (fd : Int) (bank_addr led_addr : Nat)
    (r b g : Nat) :
    write_led_colour env st fd bank_addr led_addr r b g =
      if env.ret st.trace (sel_call fd (of_uchar bank_addr)) < 0 then
        (-1, ⟨after env st.trace (sel_call fd (of_uchar bank_addr)),
          st.err ++ [.perror_write_word_led_addr]⟩)
      else if env.ret (after env st.trace (sel_call fd (of_uchar bank_addr)))
          (word_call fd (led_addr % 4294967296 % 65536)) < 0 then
        (-1, ⟨after env (after env st.trace (sel_call fd (of_uchar bank_addr)))
          (word_call fd (led_addr % 4294967296 % 65536)),
          st.err ++ [.perror_write_word_led_addr]⟩)
      else if env.ret (after env (after env st.trace
          (sel_call fd (of_uchar bank_addr)))
          (word_call fd (led_addr % 4294967296 % 65536)))
          (sel_call fd (of_uchar bank_addr)) < 0 then
        (-1, ⟨after env (after env (after env st.trace
          (sel_call fd (of_uchar bank_addr)))
          (word_call fd (led_addr % 4294967296 % 65536)))
          (sel_call fd (of_uchar bank_addr)), st.err⟩)
      else if env.ret (after env (after env (after env st.trace
          (sel_call fd (of_uchar bank_addr)))
          (word_call fd (led_addr % 4294967296 % 65536)))
          (sel_call fd (of_uchar bank_addr)))
          (block_call fd [3, r % 256, b % 256, g % 256]) < 0 then
        (0, ⟨after env (after env (after env (after env st.trace
          (sel_call fd (of_uchar bank_addr)))
          (word_call fd (led_addr % 4294967296 % 65536)))
          (sel_call fd (of_uchar bank_addr)))
          (block_call fd [3, r % 256, b % 256, g % 256]),
          st.err ++ [.perror_block_data]⟩)
      else
        (0, ⟨after env (after env (after env (after env st.trace
          (sel_call fd (of_uchar bank_addr)))
          (word_call fd (led_addr % 4294967296 % 65536)))
          (sel_call fd (of_uchar bank_addr)))
          (block_call fd [3, r % 256, b % 256, g % 256]), st.err⟩) := by
  unfold write_led_colour
  simp only [write_word_neg_iff, write_word_snd, set_addr_neg_iff, set_addr_snd]
  by_cases h1 : env.ret st.trace (sel_call fd (of_uchar bank_addr)) < 0
  · rw [if_pos (Or.inl h1), if_pos h1, if_pos h1]; rfl
  · by_cases h2 : env.ret (after env st.trace (sel_call fd (of_uchar bank_addr)))
        (word_call fd (led_addr % 4294967296 % 65536)) < 0
    · rw [if_pos (Or.inr h2), if_neg h1, if_neg h1, if_pos h2]; rfl
    · rw [if_neg (not_or.2 ⟨h1, h2⟩), if_neg h1, if_neg h1, if_neg h2]
      simp only [syscall_snd, syscall_fst, block_call]
      split_ifs <;> rfl

theorem write_word_ok_trace (env : Env) (st : State) (fd addr : Int) (data : Nat)
    (h : ¬ (write_word env st fd addr data).1 < 0) :
    (write_word env st fd addr data).2.trace =
      after env (after env st.trace (sel_call fd addr))
        (word_call fd (data % 4294967296 % 65536)) := by
  rw [write_word_neg_iff, not_or] at h
  rw [write_word_snd, if_neg h.1]
  rfl

/-- C3: when `write_led_colour` reaches its final transaction (the word write
and the re-select of the bank address succeeded), that transaction is the last
call it makes and is an SMBus write of size block-data to command 0x03 with
payload block[0..3] = 3, r, b, g: the colour bytes go out in the order
(R,B,G), which differs from (R,G,B) whenever b and g differ.  For the colour
that `colour_from_name` resolves for "blue" the payload is [3, 0x00, 0xFF,
0x00]. -/
theorem write_led_colour_payload (env : Env) (st : State) (fd : Int)
    (bank_addr led_addr r b g : Nat) (hr : r < 256) (hb : b < 256) (hg : g < 256)
    (hword : ¬ (write_word env st fd (of_uchar bank_addr) led_addr).1 < 0)
    (hsel : ¬ (set_addr env (write_word env st fd (of_uchar bank_addr) led_addr).2 fd
      (of_uchar bank_addr)).1 < 0) :
    (write_led_colour env st fd bank_addr led_addr r b g).2.trace =
      after env (set_addr env (write_word env st fd (of_uchar bank_addr) led_addr).2 fd
        (of_uchar bank_addr)).2.trace (block_call fd [3, r, b, g]) ∧
    calls (write_led_colour env st fd bank_addr led_addr r b g).2.trace =
      calls st.trace ++
        [sel_call fd (of_uchar bank_addr), word_call fd (led_addr % 4294967296 % 65536),
         sel_call fd (of_uchar bank_addr), block_call fd [3, r, b, g]] ∧
    block_call fd [3, r, b, g] =
      .ioctl fd (.I2C_SMBUS ⟨I2C_SMBUS_WRITE, 0x03, I2C_SMBUS_BLOCK_DATA,
        .block [3, r, b, g]⟩) ∧
    (b ≠ g → block_call fd [3, r, b, g] ≠ block_call fd [3, r, g, b]) ∧
    ((colour_from_name (some lit_blue) 0 0 0).ret = 0 ∧
      calls (write_led_colour env st fd bank_addr led_addr
        (colour_from_name (some lit_blue) 0 0 0).r (colour_from_name (some lit_blue) 0 0 0).b
        (colour_from_name (some lit_blue) 0 0 0).g).2.trace =
      calls st.trace ++
        [sel_call fd (of_uchar bank_addr), word_call fd (led_addr % 4294967296 % 65536),
         sel_call fd (of_uchar bank_addr), block_call fd [3, 0x00, 0xFF, 0x00]]) := by
  have hw := hword
  rw [write_word_neg_iff, not_or] at hw
  have hs := hsel
  rw [set_addr_neg_iff, write_word_ok_trace env st fd _ led_addr hword] at hs
  have key : ∀ r' b' g' : Nat,
      (write_led_colour env st fd bank_addr led_addr r' b' g').2.trace =
        after env (after env (after env (after env st.trace
          (sel_call fd (of_uchar bank_addr)))
          (word_call fd (led_addr % 4294967296 % 65536)))
          (sel_call fd (of_uchar bank_addr)))
          (block_call fd [3, r' % 256, b' % 256, g' % 256]) := by
    intro r' b' g'
    rw [write_led_colour_eq, if_neg hw.1, if_neg hw.2, if_neg hs]
    split_ifs <;> rfl
  have er : r % 256 = r := Nat.mod_eq_of_lt hr
  have eb : b % 256 = b := Nat.mod_eq_of_lt hb
  have eg : g % 256 = g := Nat.mod_eq_of_lt hg
  refine ⟨?_, ?_, rfl, ?_, by decide, ?_⟩
  · rw [key, er, eb, eg, set_addr_snd, syscall_trace,
      write_word_ok_trace env st fd _ led_addr hword]
    rfl
  · rw [key, er, eb, eg]
    simp [after]
  · intro hne h
    simp [block_call] at h
    exact hne h.1
  · rw [key]
    have hc : colour_from_name (some lit_blue) 0 0 0 = ⟨0, 0x00, 0xFF, 0x00⟩ := by decide
    rw [hc]
    simp [after]

/-- C3 on a bus where every call succeeds: the calls made for LED address
0x0081 of bank 0x70 with colour (1,2,3). -/
theorem write_led_colour_payload_witness :
    calls (write_led_colour (env_ok 0) st0 3 0x70 0x0081 1 2 3).2.trace =
      calls st0.trace ++
        [sel_call 3 (of_uchar 0x70), word_call 3 (0x0081 % 4294967296 % 65536),
         sel_call 3 (of_uchar 0x70), block_call 3 [3, 1, 2, 3]] :=
  (write_led_colour_payload (env_ok 0) st0 3 0x70 0x0081 1 2 3 (by decide) (by decide)
    (by decide) (by decide) (by decide)).2.1

theorem write_led_colour_calls (env : Env) (st : State) (fd : Int)
    (bank_addr led_addr r b g : Nat) :
    ∃ rest, (write_led_colour env st fd bank_addr led_addr r b g).2.trace =
      st.trace ++ ⟨sel_call fd (of_uchar bank_addr),
        env.ret st.trace (sel_call fd (of_uchar bank_addr))⟩ :: rest ∧
      ((write_led_colour env st fd bank_addr led_addr r b g).1 = -1 →
        ∀ e ∈ rest, is_block_write e.call = false) := by
  rw [write_led_colour_eq]
  split_ifs
  · exact ⟨[], by simp [after], by simp⟩
  · exact ⟨_, by simp only [after, List.append_assoc, List.singleton_append]; rfl,
      by simp [word_call, is_block_write]⟩
  · exact ⟨_, by simp only [after, List.append_assoc, List.singleton_append,
      List.cons_append]; rfl, by simp [word_call, sel_call, is_block_write]⟩
  · exact ⟨_, by simp only [after, List.append_assoc, List.singleton_append,
      List.cons_append]; rfl, by simp⟩
  · exact ⟨_, by simp only [after, List.append_assoc, List.singleton_append,
      List.cons_append]; rfl, by simp⟩

theorem led_iter_trace (env : Env) (fd : Int) (bank_addr r b g : Nat) (st : State) (n : Nat) :
    (led_iter env fd bank_addr r b g st n).trace =
      (write_led_colour env st fd bank_addr (led_addr_for_index (n : Int)) r b g).2.trace := by
  unfold led_iter
  simp only []
  split <;> rfl

theorem led_fold_count (env : Env) (fd : Int) (bank_addr r b g : Nat) (l : List Nat) :
    ∀ st : State,
      (calls st.trace).count (sel_call fd (of_uchar bank_addr)) + l.length ≤
        (calls (l.foldl (led_iter env fd bank_addr r b g) st).trace).count
          (sel_call fd (of_uchar bank_addr)) := by
  induction l with
  | nil => intro st; simp
  | cons n l ih =>
    intro st
    have h := ih (led_iter env fd bank_addr r b g st n)
    obtain ⟨rest, hrest, _⟩ :=
      write_led_colour_calls env st fd bank_addr (led_addr_for_index (n : Int)) r b g
    rw [led_iter_trace, hrest] at h
    simp only [List.foldl_cons, List.length_cons]
    simp only [calls_append, calls_cons, List.count_append, List.count_cons_self] at h
    omega

theorem led_loop_eq_fold (env : Env) (fd : Int) (bank_addr r b g : Nat) (st : State) :
    led_loop env fd bank_addr r b g 0 st =
      (List.range 8).foldl (led_iter env fd bank_addr r b g) st := by
  have e : List.range 8 = [0, 1, 2, 3, 4, 5, 6, 7] := by decide
  rw [e]
  simp only [List.foldl_cons, List.foldl_nil]
  rw [led_loop, if_pos (by decide), led_loop, if_pos (by decide), led_loop,
    if_pos (by decide), led_loop, if_pos (by decide), led_loop, if_pos (by decide),
    led_loop, if_pos (by decide), led_loop, if_pos (by decide), led_loop,
    if_pos (by decide), led_loop, if_neg (by decide)]

/-- C10: `write_led_colour` returns -1 exactly when the word write of the LED
address fails or, that write having succeeded, the re-select of the bank
address fails, and then none of the calls it made is a block write; in every
other case it returns 0, also when the final block-write ioctl fails.  The
loop of `main` over the LED indices runs its body for every n = 0..7 whatever
the calls return: it is the eightfold iteration of the body, and it makes at
least eight address selects of the bank. -/
theorem write_led_colour_failure (env : Env) (st : State) (fd : Int)
    (bank_addr led_addr r b g : Nat) :
    ((write_led_colour env st fd bank_addr led_addr r b g).1 = -1 ↔
      ((write_word env st fd (of_uchar bank_addr) led_addr).1 < 0 ∨
       (¬ (write_word env st fd (of_uchar bank_addr) led_addr).1 < 0 ∧
        (set_addr env (write_word env st fd (of_uchar bank_addr) led_addr).2 fd
          (of_uchar bank_addr)).1 < 0))) ∧
    ((write_led_colour env st fd bank_addr led_addr r b g).1 = -1 →
      ∀ e ∈ (write_led_colour env st fd bank_addr led_addr r b g).2.trace.drop
        st.trace.length, is_block_write e.call = false) ∧
    ((write_led_colour env st fd bank_addr led_addr r b g).1 ≠ -1 →
      (write_led_colour env st fd bank_addr led_addr r b g).1 = 0) ∧
    (¬ (write_word env st fd (of_uchar bank_addr) led_addr).1 < 0 →
      ¬ (set_addr env (write_word env st fd (of_uchar bank_addr) led_addr).2 fd
          (of_uchar bank_addr)).1 < 0 →
      env.ret (set_addr env (write_word env st fd (of_uchar bank_addr) led_addr).2 fd
          (of_uchar bank_addr)).2.trace (block_call fd [3, r % 256, b % 256, g % 256]) < 0 →
      (write_led_colour env st fd bank_addr led_addr r b g).1 = 0) ∧
    led_loop env fd bank_addr r b g 0 st =
      (List.range 8).foldl (led_iter env fd bank_addr r b g) st ∧
    (calls st.trace).count (sel_call fd (of_uchar bank_addr)) + 8 ≤
      (calls (led_loop env fd bank_addr r b g 0 st).trace).count
        (sel_call fd (of_uchar bank_addr)) := by
  have hiff : (write_led_colour env st fd bank_addr led_addr r b g).1 = -1 ↔
      ((write_word env st fd (of_uchar bank_addr) led_addr).1 < 0 ∨
       (¬ (write_word env st fd (of_uchar bank_addr) led_addr).1 < 0 ∧
        (set_addr env (write_word env st fd (of_uchar bank_addr) led_addr).2 fd
          (of_uchar bank_addr)).1 < 0)) := by
    by_cases hw : (write_word env st fd (of_uchar bank_addr) led_addr).1 < 0
    · have : (write_led_colour env st fd bank_addr led_addr r b g).1 = -1 := by
        unfold write_led_colour; simp only []; rw [if_pos hw]
      simp [hw, this]
    · by_cases hs : (set_addr env (write_word env st fd (of_uchar bank_addr) led_addr).2 fd
          (of_uchar bank_addr)).1 < 0
      · have : (write_led_colour env st fd bank_addr led_addr r b g).1 = -1 := by
          unfold write_led_colour; simp only []; rw [if_neg hw, if_pos hs]
        simp [hw, hs, this]
      · have : (write_led_colour env st fd bank_addr led_addr r b g).1 = 0 := by
          unfold write_led_colour; simp only []; rw [if_neg hw, if_neg hs]
          split <;> rfl
        simp [hw, hs, this]
  refine ⟨hiff, ?_, ?_, ?_, led_loop_eq_fold env fd bank_addr r b g st, ?_⟩
  · intro h e he
    obtain ⟨rest, hrest, hno⟩ := write_led_colour_calls env st fd bank_addr led_addr r b g
    rw [hrest, List.drop_left] at he
    rcases List.mem_cons.1 he with h1 | h1
    · subst h1; rfl
    · exact hno h e h1
  · intro h
    rw [write_led_colour_eq] at h ⊢
    split_ifs at h ⊢ <;> simp_all
  · intro hw hs _
    by_contra hne
    have h1 : (write_led_colour env st fd bank_addr led_addr r b g).1 = -1 := by
      by_contra h2
      rw [write_led_colour_eq] at h2 hne
      split_ifs at h2 hne <;> simp_all
    rcases hiff.1 h1 with h3 | h3
    · exact hw h3
    · exact hs h3.2
  · rw [led_loop_eq_fold]
    exact led_fold_count env fd bank_addr r b g (List.range 8) st

/-- C10 on a bus where the block write fails but every other call succeeds:
`write_led_colour` still returns 0. -/
theorem write_led_colour_failure_witness :
    (write_led_colour
      { ret := fun _ c => if is_block_write c then -1 else 0
        pathv := fun _ _ => []
        funcs := fun _ _ => 0 } st0 3 0x70 0x0081 1 2 3).1 = 0 :=
  (write_led_colour_failure
    { ret := fun _ c => if is_block_write c then -1 else 0
      pathv := fun _ _ => []
      funcs := fun _ _ => 0 } st0 3 0x70 0x0081 1 2 3).2.2.2.1
    (by decide) (by decide) (by decide)

/-! ## One bank when every ioctl succeeds -/

/-- C4: for an LED index n in 0..7, `led_addr_for_index n` is the integer
0x0081 + n*0x0300 exactly: the 32-bit sum does not wrap, the value is below
2^16, and `write_word` puts it unchanged into its 16-bit word field (the
transaction it issues after a successful address select carries that word);
index 0 gives 0x0081 and index 7 gives 0x1581. -/
theorem led_addr_for_index_exact (n : Int) (h0 : 0 ≤ n) (h7 : n ≤ 7) :
    (led_addr_for_index n : Int) = 0x0081 + n * 0x0300 ∧
    0x0081 + to_uint n * 0x0300 < 4294967296 ∧
    led_addr_for_index n < 65536 ∧
    led_addr_for_index n % 4294967296 % 65536 = led_addr_for_index n ∧
    (∀ (env : Env) (st : State) (fd addr : Int),
      0 ≤ env.ret st.trace (sel_call fd addr) →
      calls (write_word env st fd addr (led_addr_for_index n)).2.trace =
        calls st.trace ++
          [sel_call fd addr, word_call fd (0x0081 + n.toNat * 0x0300)]) ∧
    led_addr_for_index 0 = 0x0081 ∧ led_addr_for_index 7 = 0x1581 := by
  have hn : n = 0 ∨ n = 1 ∨ n = 2 ∨ n = 3 ∨ n = 4 ∨ n = 5 ∨ n = 6 ∨ n = 7 := by omega
  have key : led_addr_for_index n = 0x0081 + n.toNat * 0x0300 := by
    rcases hn with h | h | h | h | h | h | h | h <;> subst h <;> decide
  refine ⟨?_, ?_, ?_, ?_, ?_, by decide, by decide⟩
  · rcases hn with h | h | h | h | h | h | h | h <;> subst h <;> decide
  · rcases hn with h | h | h | h | h | h | h | h <;> subst h <;> decide
  · rcases hn with h | h | h | h | h | h | h | h <;> subst h <;> decide
  · rcases hn with h | h | h | h | h | h | h | h <;> subst h <;> decide
  · intro env st fd addr hsel
    have hlt : ¬ env.ret st.trace (sel_call fd addr) < 0 := by omega
    have hw : (0x0081 + n.toNat * 0x0300) % 4294967296 % 65536 = 0x0081 + n.toNat * 0x0300 := by
      rcases hn with h | h | h | h | h | h | h | h <;> subst h <;> decide
    rw [key, write_word_snd, if_neg hlt, hw]
    simp

/-- C4 at the index 5: the address is 0x0F81. -/
theorem led_addr_for_index_exact_witness :
    (led_addr_for_index 5 : Int) = 0x0081 + 5 * 0x0300 ∧ led_addr_for_index 5 < 65536 :=
  ⟨(led_addr_for_index_exact 5 (by decide) (by decide)).1,
   (led_addr_for_index_exact 5 (by decide) (by decide)).2.2.1⟩

/-! ## The adapter search -/

theorem is_probe_quick (fd : Int) (rw : Nat) : is_probe (quick_call fd rw) = true := rfl

theorem is_probe_recv (fd : Int) : is_probe (recv_call fd) = true := rfl

theorem after_two (env : Env) (h : Trace) (c1 c2 : Call) :
    after env (after env h c1) c2 =
      h ++ [⟨c1, env.ret h c1⟩, ⟨c2, env.ret (after env h c1) c2⟩] := by
  simp [after]

theorem after_three (env : Env) (h : Trace) (c1 c2 c3 : Call) :
    after env (after env (after env h c1) c2) c3 =
      h ++ [⟨c1, env.ret h c1⟩, ⟨c2, env.ret (after env h c1) c2⟩,
        ⟨c3, env.ret (after env (after env h c1) c2) c3⟩] := by
  simp [after]

/-- The events a presence probe adds to the trace. -/
theorem has_device_at_addr_events (env : Env) (st : State) (fd : Int) (funcs addr : Nat) :
    ∃ T : Trace,
      (has_device_at_addr env st fd funcs addr).2.trace = st.trace ++ T ∧
      (has_device_at_addr env st fd funcs addr).2.err = st.err ∧
      (∀ e ∈ T, e.call = sel_call fd (of_uchar addr) ∨
        (is_probe e.call = true ∧ ∃ req, e.call = .ioctl fd (.I2C_SMBUS req))) ∧
      ((has_device_at_addr env st fd funcs addr).1 = 0 →
        ∀ e ∈ T, is_smbus e.call = true → e.ret < 0) ∧
      ((has_device_at_addr env st fd funcs addr).1 ≠ 0 →
        (∃ a, 0 ≤ a ∧ ⟨sel_call fd (of_uchar addr), a⟩ ∈ T) ∧
        (∃ c p, 0 ≤ p ∧ is_probe c = true ∧ (∃ req, c = .ioctl fd req) ∧ ⟨c, p⟩ ∈ T)) := by
  rw [has_device_at_addr_eq]
  split_ifs with h1 h2 h3 h4 h5 h6
  · refine ⟨[⟨sel_call fd (of_uchar addr), _⟩], rfl, rfl, ?_, ?_, ?_⟩
    · intro e he
      rw [List.mem_singleton] at he
      subst he; exact Or.inl rfl
    · intro _ e he hs
      rw [List.mem_singleton] at he
      subst he; simp [sel_call, is_smbus] at hs
    · intro h; exact absurd rfl h
  · refine ⟨_, after_two env st.trace _ _, rfl, ?_, ?_, ?_⟩
    · intro e he
      simp only [List.mem_cons, List.mem_singleton, List.not_mem_nil, or_false] at he
      rcases he with he | he
      · subst he; exact Or.inl rfl
      · subst he; exact Or.inr ⟨rfl, _, rfl⟩
    · intro h; exact absurd h one_ne_zero
    · intro _
      exact ⟨⟨_, not_lt.1 h1, List.mem_cons_self _ _⟩,
        ⟨_, _, h3, is_probe_quick fd _, ⟨_, rfl⟩,
          List.mem_cons_of_mem _ (List.mem_cons_self _ _)⟩⟩
  · refine ⟨_, after_three env st.trace _ _ _, rfl, ?_, ?_, ?_⟩
    · intro e he
      simp only [List.mem_cons, List.mem_singleton, List.not_mem_nil, or_false] at he
      rcases he with he | he | he
      · subst he; exact Or.inl rfl
      · subst he; exact Or.inr ⟨rfl, _, rfl⟩
      · subst he; exact Or.inr ⟨rfl, _, rfl⟩
    · intro h; exact absurd h one_ne_zero
    · intro _
      exact ⟨⟨_, not_lt.1 h1, List.mem_cons_self _ _⟩,
        ⟨_, _, h4, is_probe_quick fd _, ⟨_, rfl⟩,
          List.mem_cons_of_mem _ (List.mem_cons_of_mem _ (List.mem_cons_self _ _))⟩⟩
  · refine ⟨_, after_three env st.trace _ _ _, rfl, ?_, ?_, ?_⟩
    · intro e he
      simp only [List.mem_cons, List.mem_singleton, List.not_mem_nil, or_false] at he
      rcases he with he | he | he
      · subst he; exact Or.inl rfl
      · subst he; exact Or.inr ⟨rfl, _, rfl⟩
      · subst he; exact Or.inr ⟨rfl, _, rfl⟩
    · intro _ e he hs
      simp only [List.mem_cons, List.mem_singleton, List.not_mem_nil, or_false] at he
      rcases he with he | he | he
      · subst he; simp [sel_call, is_smbus] at hs
      · subst he; exact not_le.1 h3
      · subst he; exact not_le.1 h4
    · intro h; exact absurd rfl h
  · refine ⟨_, after_two env st.trace _ _, rfl, ?_, ?_, ?_⟩
    · intro e he
      simp only [List.mem_cons, List.mem_singleton, List.not_mem_nil, or_false] at he
      rcases he with he | he
      · subst he; exact Or.inl rfl
      · subst he; exact Or.inr ⟨rfl, _, rfl⟩
    · intro h; exact absurd h one_ne_zero
    · intro _
      exact ⟨⟨_, not_lt.1 h1, List.mem_cons_self _ _⟩,
        ⟨_, _, h6, is_probe_recv fd, ⟨_, rfl⟩,
          List.mem_cons_of_mem _ (List.mem_cons_self _ _)⟩⟩
  · refine ⟨_, after_two env st.trace _ _, rfl, ?_, ?_, ?_⟩
    · intro e he
      simp only [List.mem_cons, List.mem_singleton, List.not_mem_nil, or_false] at he
      rcases he with he | he
      · subst he; exact Or.inl rfl
      · subst he; exact Or.inr ⟨rfl, _, rfl⟩
    · intro _ e he hs
      simp only [List.mem_cons, List.mem_singleton, List.not_mem_nil, or_false] at he
      rcases he with he | he
      · subst he; simp [sel_call, is_smbus] at hs
      · subst he; exact not_le.1 h6
    · intro h; exact absurd rfl h
  · refine ⟨[⟨sel_call fd (of_uchar addr), _⟩], rfl, rfl, ?_, ?_, ?_⟩
    · intro e he
      rw [List.mem_singleton] at he
      subst he; exact Or.inl rfl
    · intro _ e he hs
      rw [List.mem_singleton] at he
      subst he; simp [sel_call, is_smbus] at hs
    · intro h; exact absurd rfl h

theorem not_bank_of_probe (c : Call) (h : is_probe c = true) : is_bank_transaction c = false := by
  cases c with
  | ioctl fd req =>
    cases req with
    | I2C_SMBUS args =>
      simp only [is_probe, Bool.or_eq_true, Bool.and_eq_true, beq_iff_eq, I2C_SMBUS_QUICK,
        I2C_SMBUS_BYTE, I2C_SMBUS_READ] at h
      simp only [is_bank_transaction, Bool.or_eq_false_iff, beq_eq_false_iff_ne, ne_eq,
        I2C_SMBUS_WORD_DATA, I2C_SMBUS_BYTE_DATA, I2C_SMBUS_BLOCK_DATA]
      omega
    | _ => simp [is_probe] at h
  | _ => simp [is_probe] at h

theorem opened_paths_append (t u : Trace) :
    opened_paths (t ++ u) = opened_paths t ++ opened_paths u := by
  simp [opened_paths]

theorem open_count_append (t u : Trace) (x : Int) :
    open_count (t ++ u) x = open_count t x + open_count u x := by
  simp [open_count]

theorem close_count_append (t u : Trace) (x : Int) :
    close_count (t ++ u) x = close_count t x + close_count u x := by
  simp [close_count]

/-- A list of `ioctl` events has no `open` and no `close`. -/
theorem ioctl_only (T : Trace) (h : ∀ e ∈ T, ∃ fd req, e.call = .ioctl fd req) :
    opened_paths T = [] ∧ ∀ x, open_count T x = 0 ∧ close_count T x = 0 := by
  induction T with
  | nil => exact ⟨rfl, fun _ => ⟨rfl, rfl⟩⟩
  | cons e T ih =>
    obtain ⟨fd, req, he⟩ := h e (List.mem_cons_self e T)
    have ih' := ih (fun e' he' => h e' (List.mem_cons_of_mem e he'))
    refine ⟨?_, fun x => ⟨?_, ?_⟩⟩
    · have := ih'.1
      simp only [opened_paths] at this ⊢
      rw [List.filterMap_cons, he]
      exact this
    · have := (ih'.2 x).1
      simp only [open_count] at this ⊢
      rw [List.countP_cons, he, this]
      rfl
    · have := (ih'.2 x).2
      simp only [close_count] at this ⊢
      rw [List.countP_cons, he, this]
      rfl

theorem of_uchar_0x70 : of_uchar 0x70 = 0x70 := rfl

theorem probe_events_ioctl (fd : Int) (a : Int) (T : Trace)
    (h : ∀ e ∈ T, e.call = sel_call fd a ∨
      (is_probe e.call = true ∧ ∃ req, e.call = .ioctl fd (.I2C_SMBUS req))) :
    ∀ e ∈ T, ∃ fd' req, e.call = .ioctl fd' req := by
  intro e he
  rcases h e he with h1 | ⟨_, req, h2⟩
  · exact ⟨fd, _, h1⟩
  · exact ⟨fd, _, h2⟩

theorem probe_events_not_bank (fd : Int) (T : Trace)
    (h : ∀ e ∈ T, e.call = sel_call fd (of_uchar 0x70) ∨
      (is_probe e.call = true ∧ ∃ req, e.call = .ioctl fd (.I2C_SMBUS req))) :
    ∀ e ∈ T, is_bank_transaction e.call = false := by
  intro e he
  rcases h e he with h1 | ⟨h2, _⟩
  · rw [h1]; rfl
  · exact not_bank_of_probe _ h2

/-- One iteration of the adapter search, path by path, in terms of the answers
of the environment. -/
theorem adapter_step_eq (env : Env) (s : Search) (dev : String) :
    adapter_step env s dev =
      if step_fd env s dev < 0 then
        ({ s with st := ⟨after env s.st.trace (open_call dev),
            s.st.err ++ [.cannot_open dev]⟩ }, false)
      else if step_query env s dev < 0 then
        ({ s with st := ⟨after env (after env (after env s.st.trace (open_call dev))
            (funcs_call (step_fd env s dev))) (.close (step_fd env s dev)),
            s.st.err ++ [.cannot_query dev]⟩ }, false)
      else if (has_device_at_addr env (step_probe_state env s dev) (step_fd env s dev)
          (step_funcs env s dev) 0x70).1 ≠ 0 then
        ({ fd := step_fd env s dev, chosen := some dev, funcs := step_funcs env s dev,
           st := (has_device_at_addr env (step_probe_state env s dev) (step_fd env s dev)
             (step_funcs env s dev) 0x70).2 }, true)
      else
        ({ s with
           funcs := step_funcs env s dev,
           st := ⟨after env (has_device_at_addr env (step_probe_state env s dev)
               (step_fd env s dev) (step_funcs env s dev) 0x70).2.trace
               (.close (step_fd env s dev)),
             (has_device_at_addr env (step_probe_state env s dev) (step_fd env s dev)
               (step_funcs env s dev) 0x70).2.err⟩ }, false) := by
  rfl

/-- The events one iteration of the adapter search adds to the trace. -/
theorem adapter_step_facts (env : Env) (s : Search) (dev : String) :
    ∃ T : Trace,
      (adapter_step env s dev).1.st.trace = s.st.trace ++ T ∧
      opened_paths T = [dev] ∧
      (∀ e ∈ T, is_bank_transaction e.call = false) ∧
      ((adapter_step env s dev).2 = false →
        (adapter_step env s dev).1.fd = s.fd ∧
        (adapter_step env s dev).1.chosen = s.chosen ∧
        (∀ x, 0 ≤ x → open_count T x = close_count T x) ∧
        (∀ e ∈ T, is_smbus e.call = true → e.ret < 0)) ∧
      ((adapter_step env s dev).2 = true →
        (∀ x, 0 ≤ x → open_count T x =
          close_count T x + if x = (adapter_step env s dev).1.fd then 1 else 0) ∧
        responded_on T dev (adapter_step env s dev).1.fd) := by
  obtain ⟨Th, hTh, _, hcalls, hfail, hsucc⟩ :=
    has_device_at_addr_events env (step_probe_state env s dev) (step_fd env s dev)
      (step_funcs env s dev) 0x70
  have hio := ioctl_only Th (probe_events_ioctl _ _ Th hcalls)
  have hnb := probe_events_not_bank _ Th hcalls
  rw [adapter_step_eq]
  by_cases ho : step_fd env s dev < 0
  · rw [if_pos ho]
    refine ⟨[⟨open_call dev, step_fd env s dev⟩], rfl, rfl, ?_, ?_, ?_⟩
    · intro e he
      rw [List.mem_singleton] at he
      subst he; rfl
    · intro _
      refine ⟨rfl, rfl, ?_, ?_⟩
      · intro x hx
        have hne : ¬ step_fd env s dev = x := by omega
        simp [open_count, close_count, open_call, hne]
      · intro e he hs
        rw [List.mem_singleton] at he
        subst he; simp [open_call, is_smbus] at hs
    · intro h; exact Bool.noConfusion h
  · rw [if_neg ho]
    by_cases hq : step_query env s dev < 0
    · rw [if_pos hq]
      refine ⟨[⟨open_call dev, step_fd env s dev⟩,
          ⟨funcs_call (step_fd env s dev), step_query env s dev⟩,
          ⟨.close (step_fd env s dev), _⟩], after_three env s.st.trace _ _ _, rfl, ?_, ?_, ?_⟩
      · intro e he
        simp only [List.mem_cons, List.mem_singleton, List.not_mem_nil, or_false] at he
        rcases he with he | he | he <;> subst he <;> rfl
      · intro _
        refine ⟨rfl, rfl, ?_, ?_⟩
        · intro x _
          by_cases hx : step_fd env s dev = x
          · simp [open_count, close_count, open_call, funcs_call, hx]
          · simp [open_count, close_count, open_call, funcs_call, hx]
        · intro e he hs
          simp only [List.mem_cons, List.mem_singleton, List.not_mem_nil, or_false] at he
          rcases he with he | he | he <;> subst he <;>
            simp [open_call, funcs_call, is_smbus] at hs
      · intro h; exact Bool.noConfusion h
    · rw [if_neg hq]
      obtain ⟨L, hL⟩ : ∃ L : Trace, L = [⟨open_call dev, step_fd env s dev⟩,
            ⟨funcs_call (step_fd env s dev), step_query env s dev⟩,
            ⟨tenbit_call (step_fd env s dev),
              env.ret (after env (after env s.st.trace (open_call dev))
                (funcs_call (step_fd env s dev))) (tenbit_call (step_fd env s dev))⟩] :=
        ⟨_, rfl⟩
      have hpre : (step_probe_state env s dev).trace = s.st.trace ++ L := by
        rw [hL]; exact after_three env s.st.trace _ _ _
      have hop : opened_paths L = [dev] := by rw [hL]; rfl
      have hcnt : ∀ x, open_count L x = (if x = step_fd env s dev then 1 else 0) ∧
          close_count L x = 0 := by
        intro x
        rw [hL]
        by_cases hx : step_fd env s dev = x
        · simp [open_count, close_count, open_call, funcs_call, tenbit_call, hx]
        · have hx' : ¬ x = step_fd env s dev := fun h => hx h.symm
          simp [open_count, close_count, open_call, funcs_call, tenbit_call, hx, hx']
      have hpb : ∀ e ∈ L, is_bank_transaction e.call = false ∧ is_smbus e.call = false := by
        intro e he
        rw [hL] at he
        simp only [List.mem_cons, List.mem_singleton, List.not_mem_nil, or_false] at he
        rcases he with he | he | he <;> subst he <;> exact ⟨rfl, rfl⟩
      have hmem1 : (⟨open_call dev, step_fd env s dev⟩ : Event) ∈ L := by
        rw [hL]; exact List.mem_cons_self _ _
      have hmem2 : (⟨funcs_call (step_fd env s dev), step_query env s dev⟩ : Event) ∈ L := by
        rw [hL]; exact List.mem_cons_of_mem _ (List.mem_cons_self _ _)
      by_cases hh : (has_device_at_addr env (step_probe_state env s dev) (step_fd env s dev)
          (step_funcs env s dev) 0x70).1 ≠ 0
      · rw [if_pos hh]
        refine ⟨L ++ Th, by
          show (has_device_at_addr env (step_probe_state env s dev) (step_fd env s dev)
            (step_funcs env s dev) 0x70).2.trace = _
          rw [hTh, hpre, List.append_assoc], ?_, ?_, ?_, ?_⟩
        · rw [opened_paths_append, hio.1, hop]; rfl
        · intro e he
          rcases List.mem_append.1 he with h1 | h1
          · exact (hpb e h1).1
          · exact hnb e h1
        · intro h; exact Bool.noConfusion h
        · intro _
          refine ⟨?_, ?_⟩
          · intro x _
            show open_count (L ++ Th) x = close_count (L ++ Th) x +
              if x = step_fd env s dev then 1 else 0
            rw [open_count_append, close_count_append, (hcnt x).1, (hcnt x).2, (hio.2 x).1,
              (hio.2 x).2]
            simp
          · obtain ⟨⟨a, ha, hamem⟩, ⟨c, p, hp, hprobe, hreq, hcmem⟩⟩ := hsucc hh
            obtain ⟨req, hreq⟩ := hreq
            exact ⟨not_lt.1 ho, List.mem_append_left _ hmem1,
              ⟨_, List.mem_append_left _ hmem2, rfl, not_lt.1 hq⟩,
              ⟨_, List.mem_append_right _ hamem, rfl, ha⟩,
              ⟨_, List.mem_append_right _ hcmem, hprobe, by rw [hreq]; rfl, hp⟩⟩
      · rw [if_neg hh]
        have hh0 := not_not.1 hh
        refine ⟨L ++ (Th ++ [⟨.close (step_fd env s dev),
            env.ret (has_device_at_addr env (step_probe_state env s dev) (step_fd env s dev)
              (step_funcs env s dev) 0x70).2.trace (.close (step_fd env s dev))⟩]), by
          show after env (has_device_at_addr env (step_probe_state env s dev)
            (step_fd env s dev) (step_funcs env s dev) 0x70).2.trace _ = _
          rw [after, hTh, hpre]
          simp only [List.append_assoc], ?_, ?_, ?_, ?_⟩
        · rw [opened_paths_append, opened_paths_append, hio.1, hop]; rfl
        · intro e he
          rcases List.mem_append.1 he with h1 | h1
          · exact (hpb e h1).1
          · rcases List.mem_append.1 h1 with h2 | h2
            · exact hnb e h2
            · rw [List.mem_singleton] at h2
              subst h2; rfl
        · intro _
          refine ⟨rfl, rfl, ?_, ?_⟩
          · intro x _
            rw [open_count_append, close_count_append, open_count_append, close_count_append,
              (hcnt x).1, (hcnt x).2, (hio.2 x).1, (hio.2 x).2]
            by_cases hx : x = step_fd env s dev
            · simp [open_count, close_count, hx]
            · have hx' : ¬ step_fd env s dev = x := fun h => hx h.symm
              simp [open_count, close_count, hx, hx']
          · intro e he hs
            rcases List.mem_append.1 he with h1 | h1
            · rw [(hpb e h1).2] at hs; exact Bool.noConfusion hs
            · rcases List.mem_append.1 h1 with h2 | h2
              · exact hfail hh0 e h2 hs
              · rw [List.mem_singleton] at h2
                subst h2; simp [is_smbus] at hs
        · intro h; exact Bool.noConfusion h

theorem find_adapter_cons (env : Env) (dev : String) (rest : List String) (s : Search) :
    find_adapter env (dev :: rest) s =
      if (adapter_step env s dev).2 then (adapter_step env s dev).1
      else find_adapter env rest (adapter_step env s dev).1 := rfl

/-- A search that selects nothing has tried every path, closed what it opened
and seen no SMBus transaction succeed. -/
theorem find_adapter_none (env : Env) (paths : List String) :
    ∀ s : Search, s.fd < 0 → (find_adapter env paths s).fd < 0 →
      ∃ N : Trace,
        (find_adapter env paths s).st.trace = s.st.trace ++ N ∧
        (find_adapter env paths s).fd = s.fd ∧
        (find_adapter env paths s).chosen = s.chosen ∧
        opened_paths N = paths ∧
        (∀ x, 0 ≤ x → open_count N x = close_count N x) ∧
        (∀ e ∈ N, is_smbus e.call = true → e.ret < 0) ∧
        (∀ e ∈ N, is_bank_transaction e.call = false) := by
  induction paths with
  | nil =>
    intro s _ _
    exact ⟨[], by simp [find_adapter], rfl, rfl, rfl, fun _ _ => rfl,
      fun _ h => absurd h (List.not_mem_nil _), fun _ h => absurd h (List.not_mem_nil _)⟩
  | cons dev rest ih =>
    intro s hs hR
    obtain ⟨T, hT, hop, hnb, hfalse, htrue⟩ := adapter_step_facts env s dev
    rw [find_adapter_cons] at hR ⊢
    by_cases hb : (adapter_step env s dev).2 = true
    · rw [if_pos hb] at hR
      have := (htrue hb).2.1
      omega
    · have hb' : (adapter_step env s dev).2 = false := by
        cases h : (adapter_step env s dev).2
        · rfl
        · exact absurd h hb
      rw [if_neg hb] at hR ⊢
      obtain ⟨hfd, hch, hbal, hsm⟩ := hfalse hb'
      obtain ⟨N, hN, hNfd, hNch, hNop, hNbal, hNsm, hNnb⟩ :=
        ih (adapter_step env s dev).1 (by rw [hfd]; exact hs) hR
      refine ⟨T ++ N, by rw [hN, hT, List.append_assoc], by rw [hNfd, hfd],
        by rw [hNch, hch], by rw [opened_paths_append, hop, hNop]; rfl, ?_, ?_, ?_⟩
      · intro x hx
        rw [open_count_append, close_count_append, hbal x hx, hNbal x hx]
      · intro e he
        rcases List.mem_append.1 he with h | h
        · exact hsm e h
        · exact hNsm e h
      · intro e he
        rcases List.mem_append.1 he with h | h
        · exact hnb e h
        · exact hNnb e h

/-- A search that selects an adapter: the paths split at the selected one, the
search over the paths before it selects nothing, and the iteration for the
selected path leaves the loop by `break`. -/
theorem find_adapter_some (env : Env) (paths : List String) :
    ∀ s : Search, s.fd < 0 → 0 ≤ (find_adapter env paths s).fd →
      ∃ pre dev post, paths = pre ++ dev :: post ∧
        (find_adapter env pre s).fd < 0 ∧
        (adapter_step env (find_adapter env pre s) dev).2 = true ∧
        find_adapter env paths s = (adapter_step env (find_adapter env pre s) dev).1 := by
  induction paths with
  | nil =>
    intro s hs hR
    simp only [find_adapter] at hR
    omega
  | cons d rest ih =>
    intro s hs hR
    rw [find_adapter_cons] at hR
    by_cases hb : (adapter_step env s d).2 = true
    · exact ⟨[], d, rest, rfl, hs, hb, by rw [find_adapter_cons, if_pos hb]; rfl⟩
    · rw [if_neg hb] at hR
      have hb' : (adapter_step env s d).2 = false := by
        cases h : (adapter_step env s d).2
        · rfl
        · exact absurd h hb
      obtain ⟨_, _, _, _, hfalse, _⟩ := adapter_step_facts env s d
      have hfd := (hfalse hb').1
      obtain ⟨pre, dev, post, hsplit, hpre, hstep, hres⟩ :=
        ih (adapter_step env s d).1 (by rw [hfd]; exact hs) hR
      refine ⟨d :: pre, dev, post, by rw [hsplit]; rfl, ?_, ?_, ?_⟩
      · rw [find_adapter_cons, if_neg hb]; exact hpre
      · rw [find_adapter_cons, if_neg hb]; exact hstep
      · rw [find_adapter_cons, if_neg hb, find_adapter_cons, if_neg hb]; exact hres

theorem syscall_extends (env : Env) (st : State) (c : Call) :
    st.trace <+: (syscall env st c).2.trace := List.prefix_append _ _

theorem has_device_at_addr_extends (env : Env) (st : State) (fd : Int) (funcs addr : Nat) :
    st.trace <+: (has_device_at_addr env st fd funcs addr).2.trace := by
  obtain ⟨T, hT, _⟩ := has_device_at_addr_events env st fd funcs addr
  rw [hT]; exact List.prefix_append _ _

theorem write_word_extends (env : Env) (st : State) (fd addr : Int) (data : Nat) :
    st.trace <+: (write_word env st fd addr data).2.trace := by
  rw [write_word_snd]
  split
  · exact syscall_extends env st _
  · exact (syscall_extends env st _).trans (syscall_extends env _ _)

theorem write_byte_extends (env : Env) (st : State) (fd addr : Int) (data : Nat) :
    st.trace <+: (write_byte env st fd addr data).2.trace := by
  rw [write_byte_snd]
  split
  · exact syscall_extends env st _
  · exact (syscall_extends env st _).trans (syscall_extends env _ _)

theorem set_led_direct_control_extends (env : Env) (st : State) (fd : Int) (bank code : Nat) :
    st.trace <+: (set_led_direct_control env st fd bank code).2.trace := by
  unfold set_led_direct_control
  simp only []
  split
  · exact write_word_extends env st fd _ code
  · split
    · exact (write_word_extends env st fd _ code).trans (write_byte_extends env _ fd _ _)
    · exact (write_word_extends env st fd _ code).trans (write_byte_extends env _ fd _ _)

theorem led_iter_extends (env : Env) (fd : Int) (bank r b g : Nat) (st : State) (n : Nat) :
    st.trace <+: (led_iter env fd bank r b g st n).trace := by
  obtain ⟨rest, hrest, _⟩ :=
    write_led_colour_calls env st fd bank (led_addr_for_index (n : Int)) r b g
  rw [led_iter_trace, hrest]; exact List.prefix_append _ _

theorem led_fold_extends (env : Env) (fd : Int) (bank r b g : Nat) (l : List Nat) :
    ∀ st : State, st.trace <+: (l.foldl (led_iter env fd bank r b g) st).trace := by
  induction l with
  | nil => intro st; exact List.prefix_refl _
  | cons n l ih =>
    intro st
    exact (led_iter_extends env fd bank r b g st n).trans (ih _)

theorem bank_body_extends (env : Env) (fd : Int) (chosen : Option String) (funcs r b g : Nat)
    (bank : Nat) (st : State) :
    st.trace <+: (bank_body env fd chosen funcs r b g bank st).trace := by
  unfold bank_body
  simp only []
  split
  · exact has_device_at_addr_extends env st fd funcs bank
  · rw [led_loop_eq_fold]
    exact (((has_device_at_addr_extends env st fd funcs bank).trans
      (set_led_direct_control_extends env _ fd bank _)).trans
      (set_led_direct_control_extends env _ fd bank _)).trans (led_fold_extends env fd bank r b g _ _)

theorem bank_loop_extends (env : Env) (fd : Int) (chosen : Option String) (funcs r b g : Nat)
    (l : List Nat) :
    ∀ st : State, st.trace <+: (bank_loop env fd chosen funcs r b g l st).trace := by
  induction l with
  | nil => intro st; exact List.prefix_refl _
  | cons a l ih =>
    intro st
    exact (bank_body_extends env fd chosen funcs r b g a st).trans (ih _)

theorem responded_on_mono (t u : Trace) (dev : String) (fd : Int) (h : ∀ e ∈ t, e ∈ u)
    (hr : responded_on t dev fd) : responded_on u dev fd := by
  obtain ⟨h0, h1, ⟨e2, h2, hq⟩, ⟨e3, h3, ha⟩, ⟨e4, h4, hp⟩⟩ := hr
  exact ⟨h0, h _ h1, ⟨e2, h _ h2, hq⟩, ⟨e3, h _ h3, ha⟩, ⟨e4, h _ h4, hp⟩⟩

/-! ## `main` -/

/-- The run of `main` once the arguments and the enumeration are accepted. -/
theorem main_after_glob (env : Env) (argv : List CStr) (hargc : argv.length = 2)
    (hcol : (colour_from_name (argv.get? 1) 0 0 0).ret = 0)
    (hglob : env.ret [] glob_call = 0) (hpaths : env.pathv [] glob_call ≠ []) :
    main env argv =
      if (find_adapter env (env.pathv [] glob_call) (search_init env)).fd < 0 then
        (EXIT_FAILURE, (syscall env (eprint
          (find_adapter env (env.pathv [] glob_call) (search_init env)).st
          .no_responding_device) .globfree).2)
      else
        (EXIT_SUCCESS, (syscall env (syscall env
          (bank_loop env (find_adapter env (env.pathv [] glob_call) (search_init env)).fd
            (find_adapter env (env.pathv [] glob_call) (search_init env)).chosen
            (find_adapter env (env.pathv [] glob_call) (search_init env)).funcs
            (colour_from_name (argv.get? 1) 0 0 0).r (colour_from_name (argv.get? 1) 0 0 0).b
            (colour_from_name (argv.get? 1) 0 0 0).g banks
            (find_adapter env (env.pathv [] glob_call) (search_init env)).st)
          (.close (find_adapter env (env.pathv [] glob_call) (search_init env)).fd)).2
          .globfree).2) := by
  have hlen : ¬ (env.pathv [] glob_call).length = 0 := by
    intro h; exact hpaths (List.length_eq_zero.1 h)
  unfold main
  simp only [hargc, ne_eq, not_true_eq_false, if_false, hcol, syscall_fst, hglob, hlen, or_self]
  rfl

theorem search_init_fd (env : Env) : (search_init env).fd < 0 := by
  show (-1 : Int) < 0
  decide

theorem search_init_trace (env : Env) :
    (search_init env).st.trace = [⟨glob_call, env.ret [] glob_call⟩] := rfl

/-- A run whose search selects nothing: exit status, messages and trace. -/
theorem main_search_failed (env : Env) (argv : List CStr) (hargc : argv.length = 2)
    (hcol : (colour_from_name (argv.get? 1) 0 0 0).ret = 0)
    (hglob : env.ret [] glob_call = 0) (hpaths : env.pathv [] glob_call ≠ [])
    (hfd : (find_adapter env (env.pathv [] glob_call) (search_init env)).fd < 0) :
    (main env argv).1 = EXIT_FAILURE ∧
    (∃ warnings, (main env argv).2.err = warnings ++ [.no_responding_device]) ∧
    (∀ e ∈ (main env argv).2.trace, is_bank_transaction e.call = false) ∧
    (∀ e ∈ (main env argv).2.trace, is_smbus e.call = true → e.ret < 0) := by
  obtain ⟨N, hN, _, _, _, _, hsm, hnb⟩ :=
    find_adapter_none env (env.pathv [] glob_call) (search_init env) (search_init_fd env) hfd
  rw [main_after_glob env argv hargc hcol hglob hpaths, if_pos hfd]
  have hmem : ∀ e ∈ (syscall env (eprint
      (find_adapter env (env.pathv [] glob_call) (search_init env)).st
      .no_responding_device) .globfree).2.trace,
      e.call = glob_call ∨ e ∈ N ∨ e.call = .globfree := by
    intro e he
    rw [syscall_trace, eprint_trace, hN, search_init_trace] at he
    simp only [List.singleton_append, List.mem_append, List.mem_cons, List.mem_singleton,
      List.not_mem_nil, or_false] at he
    rcases he with (he | he) | he
    · subst he; exact Or.inl rfl
    · exact Or.inr (Or.inl he)
    · subst he; exact Or.inr (Or.inr rfl)
  refine ⟨rfl, ⟨_, rfl⟩, ?_, ?_⟩
  · intro e he
    rcases hmem e he with h | h | h
    · rw [h]; rfl
    · exact hnb e h
    · rw [h]; rfl
  · intro e he hs
    rcases hmem e he with h | h | h
    · rw [h] at hs; exact Bool.noConfusion hs
    · exact hsm e h hs
    · rw [h] at hs; exact Bool.noConfusion hs

/-- A run whose search selects an adapter: exit status, and the trace shows an
adapter that opened, answered the query and passed the probe. -/
theorem main_search_succeeded (env : Env) (argv : List CStr) (hargc : argv.length = 2)
    (hcol : (colour_from_name (argv.get? 1) 0 0 0).ret = 0)
    (hglob : env.ret [] glob_call = 0) (hpaths : env.pathv [] glob_call ≠ [])
    (hfd : 0 ≤ (find_adapter env (env.pathv [] glob_call) (search_init env)).fd) :
    (main env argv).1 = EXIT_SUCCESS ∧
    adapter_responded (main env argv).2.trace (env.pathv [] glob_call) := by
  obtain ⟨pre, dev, post, hsplit, _, hstep, hres⟩ :=
    find_adapter_some env (env.pathv [] glob_call) (search_init env) (search_init_fd env) hfd
  obtain ⟨T, hT, _, _, _, htrue⟩ :=
    adapter_step_facts env (find_adapter env pre (search_init env)) dev
  have hresp := (htrue hstep).2
  rw [← hres] at hresp hT
  rw [main_after_glob env argv hargc hcol hglob hpaths, if_neg (not_lt.2 hfd)]
  have hsub : ∀ e ∈ T, e ∈ (syscall env (syscall env
      (bank_loop env (find_adapter env (env.pathv [] glob_call) (search_init env)).fd
        (find_adapter env (env.pathv [] glob_call) (search_init env)).chosen
        (find_adapter env (env.pathv [] glob_call) (search_init env)).funcs
        (colour_from_name (argv.get? 1) 0 0 0).r (colour_from_name (argv.get? 1) 0 0 0).b
        (colour_from_name (argv.get? 1) 0 0 0).g banks
        (find_adapter env (env.pathv [] glob_call) (search_init env)).st)
      (.close (find_adapter env (env.pathv [] glob_call) (search_init env)).fd)).2
      .globfree).2.trace := by
    intro e he
    have h1 : e ∈ (find_adapter env (env.pathv [] glob_call) (search_init env)).st.trace := by
      rw [hT]; exact List.mem_append_right _ he
    exact (((bank_loop_extends env _ _ _ _ _ _ banks _).trans (syscall_extends env _ _)).trans
      (syscall_extends env _ _)).subset h1
  exact ⟨rfl, dev, by rw [hsplit]; simp, _, hsub _ hresp.2.1, rfl,
    responded_on_mono _ _ dev _ hsub hresp⟩

/-- C6: with a valid colour argument and a non-empty enumeration in which no
adapter passes the presence probe at 0x70, `main` writes the line "No adapter
with a responding device at 0x70 was found." as its last line on stderr,
returns EXIT_FAILURE, and no call of the whole run is a bank-level
transaction: no word, byte-data or block write, and no address select other
than 0x70 (so every probe went to 0x70). -/
theorem main_no_responder (env : Env) (argv : List CStr) (hargc : argv.length = 2)
    (hcol : (colour_from_name (argv.get? 1) 0 0 0).ret = 0)
    (hglob : env.ret [] glob_call = 0) (hpaths : env.pathv [] glob_call ≠ [])
    (hnone : ¬ adapter_responded (main env argv).2.trace (env.pathv [] glob_call)) :
    (main env argv).1 = EXIT_FAILURE ∧
    (∃ warnings, (main env argv).2.err = warnings ++ [.no_responding_device]) ∧
    (∀ e ∈ (main env argv).2.trace, is_bank_transaction e.call = false) := by
  have hfd : (find_adapter env (env.pathv [] glob_call) (search_init env)).fd < 0 := by
    by_contra h
    exact hnone (main_search_succeeded env argv hargc hcol hglob hpaths (not_lt.1 h)).2
  have h := main_search_failed env argv hargc hcol hglob hpaths hfd
  exact ⟨h.1, h.2.1, h.2.2.1⟩

/-- C6 on a run in which neither adapter can be opened. -/
theorem main_no_responder_witness :
    (main env_no_open argv_red).1 = EXIT_FAILURE ∧
    (∃ warnings, (main env_no_open argv_red).2.err = warnings ++ [.no_responding_device]) :=
  have h := main_no_responder env_no_open argv_red (by decide) (by decide) (by decide)
    (by decide) (by decide)
  ⟨h.1, h.2.1⟩

/-- Runs of `main` that fail before or during the adapter search: no argument,
an unknown colour ("green"), and two adapters that cannot be opened. -/
theorem main_failing_runs :
    main (env_ok 0) [] = (EXIT_FAILURE, ⟨[], [.usage none]⟩) ∧
    main (env_ok 0) [[97], [103, 114, 101, 101, 110]] =
      (EXIT_FAILURE, ⟨[], [.invalid_colour (some [103, 114, 101, 101, 110])]⟩) ∧
    main env_no_open argv_red =
      (EXIT_FAILURE,
        ⟨[⟨glob_call, 0⟩, ⟨open_call "/dev/i2c-0", -1⟩, ⟨open_call "/dev/i2c-1", -1⟩,
          ⟨.globfree, 0⟩],
         [.cannot_open "/dev/i2c-0", .cannot_open "/dev/i2c-1", .no_responding_device]⟩) := by
  decide

/-- The search over two adapters of which the first cannot be opened: the calls
made, and the descriptor and path kept. -/
theorem find_adapter_second_run :
    calls (find_adapter env_second ["/dev/i2c-0", "/dev/i2c-1"]
      (search_init env_second)).st.trace =
      [glob_call, open_call "/dev/i2c-0", open_call "/dev/i2c-1", funcs_call 5,
       tenbit_call 5, sel_call 5 0x70, quick_call 5 I2C_SMBUS_WRITE] ∧
    (find_adapter env_second ["/dev/i2c-0", "/dev/i2c-1"] (search_init env_second)).chosen =
      some "/dev/i2c-1" ∧
    (find_adapter env_second ["/dev/i2c-0", "/dev/i2c-1"] (search_init env_second)).funcs =
      I2C_FUNC_SMBUS_QUICK := by
  decide

end SetLeds
